import Mathlib

/-!
# Softsmith orchestration core — shallow embedding

A shallow embedding of the orchestration engine of the Softsmith backend
(`backend/app/services/orchestrator.py`, `backend/app/services/project_service.py`,
`backend/app/agents/fixer.py`) together with the data model it operates on
(`backend/app/models/task.py`; the Project entity's module is not present in the
source tree and is modelled from the specification's data-model section).

Modelling conventions:
* The SQLAlchemy session is modelled as an explicit `DB` value (lists of project
  and task rows) threaded through every operation; `commit` boundaries have no
  observable effect in this sequential model and are dropped.
* `datetime.utcnow()` is modelled by an explicit `now : Nat` argument.
* Celery `delay(...)` calls are modelled as emitted `Invocation` values returned
  alongside the new state; the opaque celery task id is modelled by a fresh
  handle counter in `DB`.
* Task and project primary keys (uuid strings) are modelled as `Nat`; fresh ids
  for inserted tasks are drawn from `DB.nextTaskId`.
* `Task.retry_count` is stored as a string in the source (`default="0"`, written
  back as `str(retry_count + 1)` after reading with `int(...)`); since every
  value the system writes round-trips through `int`, it is modelled as `Nat`.
* The append-only `Event` audit rows that several handlers insert are omitted:
  per the specification they are never read by the orchestration logic.
* Python functions that can raise on a missing row (`scalar_one()`) return
  `Option`, with `none` for the raising path; handlers that log and return on a
  missing row (`scalar_one_or_none()` then early return) return the state
  unchanged.
-/

namespace Softsmith

/-- Task execution states (`models/task.py`, `TaskStatus`). -/
inductive TaskStatus where
  | pending
  | queued
  | running
  | completed
  | failed
  | cancelled
  | retrying
deriving DecidableEq, Repr

/-- Types of tasks in the project workflow (`models/task.py`, `TaskType`). -/
inductive TaskType where
  | planning
  | codegen
  | testing
  | debugging
  | deployment
  | web_test
  | review
  | documentation
deriving DecidableEq, Repr

/-- Modelled from the spec: project lifecycle states. The module defining the
`Project` entity (`app/models/project.py`) is not present in the source tree;
the status enumeration is taken from the specification's data model:
`NEW, PLANNING, CODING, TESTING, DEPLOYING, READY, DEPLOYED, FAILED, PAUSED`. -/
inductive ProjectStatus where
  | new
  | planning
  | coding
  | testing
  | deploying
  | ready
  | deployed
  | failed
  | paused
deriving DecidableEq, Repr

/-- A task row (`models/task.py`, class `Task`), restricted to the columns the
orchestration core reads or writes. `depends_on` is the JSON list of dependency
task ids (`[]` models both the empty list and SQL `NULL`, which the source
treats identically via Python truthiness). `input_data` models the codegen
input payload `{"component": ..., "spec": ...}` as the component name paired
with the opaque component sub-specification. -/
structure Task where
  id : Nat
  project_id : Nat
  name : String
  type : TaskType
  status : TaskStatus
  input_data : Option (String × String)
  output_data : Option String
  error_message : Option String
  depends_on : List Nat
  completed_at : Option Nat
  retry_count : Nat
  celery_task_id : Option Nat
deriving DecidableEq, Repr

/-- Modelled from the spec: the `Project` entity (its module
`app/models/project.py` is absent from the source tree). Fields follow the
specification's data model — identity, structured specification document,
status, aggregate task counters, last recorded error — restricted to what the
orchestration core in the present source files reads or writes. The
specification document is modelled by `SpecDoc` below. -/
structure Project where
  id : Nat
  name : String
  status : ProjectStatus
  spec : Option (Option String × Option String × Option String)
  total_tasks : Nat
  completed_tasks : Nat
  failed_tasks : Nat
  last_error : Option String
  error_count : Nat
  started_at : Option Nat
  completed_at : Option Nat
  updated_at : Option Nat
deriving DecidableEq, Repr

/-- The planning specification document, keyed by component name. The source
reads exactly the keys `"backend"`, `"frontend"`, `"infrastructure"` with
`spec.get(...)` under Python truthiness; `some s` models a present, truthy
component sub-specification (itself opaque), `none` an absent or falsy one. -/
structure SpecDoc where
  backend : Option String
  frontend : Option String
  infrastructure : Option String
deriving DecidableEq, Repr

def SpecDoc.asTriple (s : SpecDoc) : Option String × Option String × Option String :=
  (s.backend, s.frontend, s.infrastructure)

/-- An enqueued external-agent invocation (a Celery `delay(...)` call). -/
inductive Invocation where
  | planner (project_id : Nat) (task_id : Nat)
  | codegen (task_id : Nat)
  | tester (task_id : Nat)
  | deployer (task_id : Nat)
  | webTests (task_id : Nat)
  | fixer (task_id : Nat) (error : String)
deriving DecidableEq, Repr

/-- The task id an invocation executes (the fixer invocation carries the
original task's id). -/
def Invocation.taskId : Invocation → Nat
  | .planner _ tid => tid
  | .codegen tid => tid
  | .tester tid => tid
  | .deployer tid => tid
  | .webTests tid => tid
  | .fixer tid _ => tid

/-- The persistent store visible to the orchestration core: project rows and
task rows, plus counters supplying fresh primary keys and dispatch handles. -/
structure DB where
  projects : List Project
  tasks : List Task
  nextTaskId : Nat
  nextHandle : Nat
deriving DecidableEq, Repr

/-- `select(Task).where(Task.id == tid)` followed by `scalar_one_or_none()`. -/
def findTask (db : DB) (tid : Nat) : Option Task :=
  db.tasks.find? fun t => t.id == tid

/-- `select(Project).where(Project.id == pid)` followed by
`scalar_one_or_none()`. -/
def findProject (db : DB) (pid : Nat) : Option Project :=
  db.projects.find? fun p => p.id == pid

/-- Update the task row with primary key `tid` (mutating an ORM object bound to
that row and committing). -/
def updateTask (db : DB) (tid : Nat) (f : Task → Task) : DB :=
  { db with tasks := db.tasks.map fun t => if t.id == tid then f t else t }

/-- Update the project row with primary key `pid`. -/
def updateProject (db : DB) (pid : Nat) (f : Project → Project) : DB :=
  { db with projects := db.projects.map fun p => if p.id == pid then f p else p }

/-- `Orchestrator._task_is_ready` (orchestrator.py:199-214): a task is ready
when it has no dependencies, or every dependency id resolves to a task whose
status is `COMPLETED`; a missing or non-completed dependency yields `False`. -/
def task_is_ready (db : DB) (task : Task) : Bool :=
  if task.depends_on.isEmpty then
    true
  else
    task.depends_on.all fun dep_id =>
      match findTask db dep_id with
      | none => false
      | some dep_task => dep_task.status == TaskStatus.completed

/-- The agent-routing table of `Orchestrator._schedule_task`
(orchestrator.py:223-242): `CODEGEN`, `TESTING`, `DEPLOYMENT` and `WEB_TEST`
tasks are handed to their matching agent; every other type falls through with
no invocation. -/
def route_invocation (t : Task) : Option Invocation :=
  match t.type with
  | TaskType.codegen => some (Invocation.codegen t.id)
  | TaskType.testing => some (Invocation.tester t.id)
  | TaskType.deployment => some (Invocation.deployer t.id)
  | TaskType.web_test => some (Invocation.webTests t.id)
  | _ => none

/-- Consume one fresh dispatch handle (the id of a `delay(...)` result). -/
def withHandleBump (db : DB) : DB :=
  { db with nextHandle := db.nextHandle + 1 }

/-- `Orchestrator._schedule_task` (orchestrator.py:216-244): set the task's
status to `QUEUED`, then enqueue the agent matching its type, recording the
returned celery task id on the task row. -/
def schedule_task (db : DB) (t : Task) : DB × List Invocation :=
  let db1 := updateTask db t.id fun u => { u with status := TaskStatus.queued }
  match route_invocation t with
  | some inv =>
      (withHandleBump
        (updateTask db1 t.id fun u => { u with celery_task_id := some db1.nextHandle }), [inv])
  | none => (db1, [])

/-- The `for task in pending_tasks` loop of `Orchestrator.schedule_next_tasks`
(orchestrator.py:195-197): each task of the snapshot is re-checked for
readiness against the current store and scheduled when ready. -/
def schedule_loop (db : DB) : List Task → DB × List Invocation
  | [] => (db, [])
  | t :: rest =>
    if task_is_ready db t then
      let r1 := schedule_task db t
      let r2 := schedule_loop r1.1 rest
      (r2.1, r1.2 ++ r2.2)
    else
      schedule_loop db rest

/-- `Orchestrator.schedule_next_tasks` (orchestrator.py:184-197): select the
project's tasks with `status == PENDING`, then schedule every one that is
ready. -/
def schedule_next_tasks (db : DB) (project_id : Nat) : DB × List Invocation :=
  schedule_loop db
    (db.tasks.filter fun t => t.project_id == project_id && t.status == TaskStatus.pending)

/-- `Orchestrator._check_project_completion` (orchestrator.py:323-347): if the
project exists and every one of its tasks is `COMPLETED`, set its status to
`READY` and stamp the completion time; otherwise change nothing. -/
def check_project_completion (db : DB) (now : Nat) (project_id : Nat) : DB :=
  match findProject db project_id with
  | none => db
  | some _ =>
    let tasks := db.tasks.filter fun t => t.project_id == project_id
    let all_complete := tasks.all fun t => t.status == TaskStatus.completed
    if all_complete then
      updateProject db project_id fun p =>
        { p with status := ProjectStatus.ready, completed_at := some now }
    else
      db

/-- `Orchestrator.on_task_complete` (orchestrator.py:246-276): a missing task
is logged and the handler returns without mutation; otherwise the task's status
is set to `COMPLETED` (unconditionally), the completion time stamped, the
output stored, the owning project's completed-task counter incremented
(`scalar_one()` raises if the project row is missing, modelled as `none`), then
the scheduling loop and the completion check run for the owning project. -/
def on_task_complete (db : DB) (now : Nat) (task_id : Nat) (output : String) :
    Option (DB × List Invocation) :=
  match findTask db task_id with
  | none => some (db, [])
  | some task =>
    let db1 := updateTask db task_id fun t =>
      { t with status := TaskStatus.completed,
               completed_at := some now,
               output_data := some output }
    match findProject db1 task.project_id with
    | none => none
    | some _ =>
      let db2 := updateProject db1 task.project_id fun p =>
        { p with completed_tasks := p.completed_tasks + 1 }
      let r := schedule_next_tasks db2 task.project_id
      some (check_project_completion r.1 now task.project_id, r.2)

/-- `Orchestrator.on_task_failure` (orchestrator.py:278-321): a missing task is
logged and the handler returns without mutation. If `retry_count <
max_retries`, the task moves to `RETRYING`, its retry counter is incremented,
the error recorded, and a fixer invocation carrying the task id and error text
is enqueued (its handle recorded on the task). Otherwise the task moves to
terminal `FAILED` with the error recorded, and the owning project (fetched with
`scalar_one()`, which raises if missing — modelled as `none`) gets its
failed-task counter incremented, its status set to `FAILED`, and its last error
set to `"Task <name> failed: <error>"`. -/
def on_task_failure (db : DB) (max_retries : Nat) (task_id : Nat) (error : String) :
    Option (DB × List Invocation) :=
  match findTask db task_id with
  | none => some (db, [])
  | some task =>
    if task.retry_count < max_retries then
      let db1 := updateTask db task_id fun t =>
        { t with status := TaskStatus.retrying,
                 retry_count := t.retry_count + 1,
                 error_message := some error }
      let db2 : DB :=
        withHandleBump
          (updateTask db1 task_id fun t => { t with celery_task_id := some db1.nextHandle })
      some (db2, [Invocation.fixer task_id error])
    else
      let db1 := updateTask db task_id fun t =>
        { t with status := TaskStatus.failed, error_message := some error }
      match findProject db1 task.project_id with
      | none => none
      | some _ =>
        let db2 := updateProject db1 task.project_id fun p =>
          { p with failed_tasks := p.failed_tasks + 1,
                   status := ProjectStatus.failed,
                   last_error := some ("Task " ++ task.name ++ " failed: " ++ error) }
        some (db2, [])

/-- A fresh `Task(...)` row as `Orchestrator.create_tasks_from_spec` constructs
them (orchestrator.py:103-156): pending, no dependencies, id assigned later at
flush (0 placeholder). -/
def mkSpecTask (project_id : Nat) (nm : String) (ty : TaskType)
    (inp : Option (String × String)) : Task :=
  { id := 0, project_id := project_id, name := nm, type := ty,
    status := TaskStatus.pending, input_data := inp, output_data := none,
    error_message := none, depends_on := [], completed_at := none,
    retry_count := 0, celery_task_id := none }

/-- The `CODEGEN` rows of `Orchestrator.create_tasks_from_spec`
(orchestrator.py:105-136): one per truthy component key in source order —
backend, frontend, infrastructure. -/
def spec_codegen_tasks (project_id : Nat) (spec : SpecDoc) : List Task :=
  (match spec.backend with
   | some s => [mkSpecTask project_id "Generate Backend Code" TaskType.codegen
       (some ("backend", s))]
   | none => []) ++
  (match spec.frontend with
   | some s => [mkSpecTask project_id "Generate Frontend Code" TaskType.codegen
       (some ("frontend", s))]
   | none => []) ++
  (match spec.infrastructure with
   | some s => [mkSpecTask project_id "Generate Infrastructure" TaskType.codegen
       (some ("infrastructure", s))]
   | none => [])

/-- The full batch of fresh rows built by `Orchestrator.create_tasks_from_spec`
(orchestrator.py:103-156) before ids are assigned at flush: the `CODEGEN` rows,
then one `TESTING` row and one `DEPLOYMENT` row, both with empty `depends_on`
to be patched after the flush. -/
def spec_raw_tasks (project_id : Nat) (spec : SpecDoc) : List Task :=
  spec_codegen_tasks project_id spec ++
  [mkSpecTask project_id "Generate and Run Tests" TaskType.testing none,
   mkSpecTask project_id "Deploy Application" TaskType.deployment none]

/-- Primary-key assignment at `db.flush()`: the batch of inserted rows receives
fresh ids in insertion order. -/
def assignIds (base : Nat) : List Task → List Task
  | [] => []
  | t :: ts => { t with id := base } :: assignIds (base + 1) ts

/-- The dependency patching of `Orchestrator.create_tasks_from_spec`
(orchestrator.py:158-173): after the flush assigns ids, every `TESTING` task of
the batch receives the ids of the batch's `CODEGEN` tasks as dependencies, and
every `DEPLOYMENT` task the ids of the batch's `TESTING` tasks. -/
def batch_with_deps (base project_id : Nat) (spec : SpecDoc) : List Task :=
  let assigned := assignIds base (spec_raw_tasks project_id spec)
  let code_task_ids := (assigned.filter fun t => t.type == TaskType.codegen).map (·.id)
  let test_task_ids := (assigned.filter fun t => t.type == TaskType.testing).map (·.id)
  assigned.map fun t =>
    if t.type == TaskType.testing then { t with depends_on := code_task_ids }
    else if t.type == TaskType.deployment then { t with depends_on := test_task_ids }
    else t

/-- `Orchestrator.create_tasks_from_spec` (orchestrator.py:101-182): build the
task batch from the specification, flush to assign ids, patch the dependency
lists, and finally record the batch size as the project's total task count
(`scalar_one()` raises on a missing project, modelled as `none`). -/
def create_tasks_from_spec (db : DB) (project_id : Nat) (spec : SpecDoc) : Option DB :=
  let withDeps := batch_with_deps db.nextTaskId project_id spec
  match findProject db project_id with
  | none => none
  | some _ =>
    let db1 : DB :=
      { db with tasks := db.tasks ++ withDeps,
                nextTaskId := db.nextTaskId + withDeps.length }
    some (updateProject db1 project_id fun p => { p with total_tasks := withDeps.length })

/-- `Orchestrator.on_planning_complete` (orchestrator.py:76-99): a missing
project is logged and the handler returns without mutation; otherwise the
specification is saved, the project moves to `CODING` with its start time
stamped, the task graph is created from the specification, and the scheduling
loop runs for the project. -/
def on_planning_complete (db : DB) (now : Nat) (project_id : Nat) (spec : SpecDoc) :
    Option (DB × List Invocation) :=
  match findProject db project_id with
  | none => some (db, [])
  | some _ =>
    let db1 := updateProject db project_id fun p =>
      { p with spec := some spec.asTriple,
               status := ProjectStatus.coding,
               started_at := some now }
    match create_tasks_from_spec db1 project_id spec with
    | none => none
    | some db2 => some (schedule_next_tasks db2 project_id)

/-- The database effects of the success tail of `_run_fixer_async`
(fixer.py:166-176): after the fix is applied, the original task is reset to
`PENDING` with its error message cleared, and the scheduling loop is re-invoked
for the owning project. -/
def fixer_on_success (db : DB) (task_id : Nat) (project_id : Nat) : DB × List Invocation :=
  let db1 := updateTask db task_id fun t =>
    { t with status := TaskStatus.pending, error_message := none }
  schedule_next_tasks db1 project_id

/-- The database effects of the exception handler of `_run_fixer_async`
(fixer.py:178-198): the original task is marked permanently `FAILED` with the
error message `"Fix attempt failed: <e>"`; no agent is enqueued and no project
row is touched. -/
def fixer_on_failure (db : DB) (task_id : Nat) (e : String) : DB × List Invocation :=
  (updateTask db task_id fun t =>
    { t with status := TaskStatus.failed,
             error_message := some ("Fix attempt failed: " ++ e) }, [])

/-- `ProjectService.update_project_status` (project_service.py:85-120): a
missing project yields `None`; otherwise the status is set and `updated_at`
stamped; when the new status is `FAILED` and an error message is supplied, the
last error is recorded and the error counter incremented; when the new status
is `READY` or `DEPLOYED`, the completion time is stamped. -/
def update_project_status (db : DB) (now : Nat) (project_id : Nat)
    (status : ProjectStatus) (error_message : Option String) : Option DB :=
  match findProject db project_id with
  | none => none
  | some _ =>
    let db1 := updateProject db project_id fun p =>
      let p1 := { p with status := status, updated_at := some now }
      let p2 :=
        match status, error_message with
        | ProjectStatus.failed, some msg =>
            { p1 with last_error := some msg, error_count := p1.error_count + 1 }
        | _, _ => p1
      if status = ProjectStatus.ready ∨ status = ProjectStatus.deployed then
        { p2 with completed_at := some now }
      else
        p2
    some db1

/-- `ProjectService.pause_project` (project_service.py:160-162). -/
def pause_project (db : DB) (now : Nat) (project_id : Nat) : Option DB :=
  update_project_status db now project_id ProjectStatus.paused none

/-- `ProjectService.resume_project` (project_service.py:164-172): `None` unless
the project exists and is `PAUSED`; otherwise the status is set to `CODING`
("For now, just set to CODING" in the source). -/
def resume_project (db : DB) (now : Nat) (project_id : Nat) : Option DB :=
  match findProject db project_id with
  | none => none
  | some p =>
    if p.status ≠ ProjectStatus.paused then none
    else update_project_status db now project_id ProjectStatus.coding none

/-- Well-formedness of the store: distinct task ids, distinct project ids, and
every stored task id below the fresh-id counter. -/
def DB.wf (db : DB) : Prop :=
  (db.tasks.map Task.id).Nodup ∧
  (db.projects.map Project.id).Nodup ∧
  ∀ t ∈ db.tasks, t.id < db.nextTaskId

instance (db : DB) : Decidable db.wf := by
  unfold DB.wf
  infer_instance

/-! ## Store lemmas -/

theorem updateTask_projects (db : DB) (tid : Nat) (f : Task → Task) :
    (updateTask db tid f).projects = db.projects := rfl

theorem updateTask_nextTaskId (db : DB) (tid : Nat) (f : Task → Task) :
    (updateTask db tid f).nextTaskId = db.nextTaskId := rfl

theorem updateProject_tasks (db : DB) (pid : Nat) (f : Project → Project) :
    (updateProject db pid f).tasks = db.tasks := rfl

theorem findTask_mem {db : DB} {tid : Nat} {t : Task} (h : findTask db tid = some t) :
    t ∈ db.tasks ∧ t.id = tid := by
  unfold findTask at h
  refine ⟨List.mem_of_find?_eq_some h, ?_⟩
  have := List.find?_some h
  simpa using this

theorem findTask_updateTask {db : DB} {tid : Nat} {f : Task → Task}
    (hid : ∀ u, (f u).id = u.id) (tid' : Nat) :
    findTask (updateTask db tid f) tid' =
      (findTask db tid').map (fun t => if t.id == tid then f t else t) := by
  unfold findTask updateTask
  simp only [List.find?_map]
  have hp : ((fun t : Task => t.id == tid') ∘ fun t => if t.id == tid then f t else t) =
      (fun t : Task => t.id == tid') := by
    funext t
    by_cases h : t.id == tid
    · simp [Function.comp, h, hid]
    · simp [Function.comp, h]
  rw [hp]

theorem findTask_updateTask_self {db : DB} {tid : Nat} {f : Task → Task} {t : Task}
    (hid : ∀ u, (f u).id = u.id) (h : findTask db tid = some t) :
    findTask (updateTask db tid f) tid = some (f t) := by
  rw [findTask_updateTask hid]
  rw [h]
  have hevt := (findTask_mem h).2
  simp [hevt]

theorem findTask_updateTask_ne {db : DB} {tid tid' : Nat} {f : Task → Task}
    (hid : ∀ u, (f u).id = u.id) (hne : tid' ≠ tid) :
    findTask (updateTask db tid f) tid' = findTask db tid' := by
  rw [findTask_updateTask hid]
  cases hf : findTask db tid' with
  | none => rfl
  | some t =>
    have hevt := (findTask_mem hf).2
    simp [hevt, hne]

theorem mem_updateTask_of_ne {db : DB} {tid : Nat} {f : Task → Task} {u : Task}
    (hmem : u ∈ db.tasks) (hne : ¬ u.id = tid) :
    u ∈ (updateTask db tid f).tasks := by
  unfold updateTask
  simp only [List.mem_map]
  exact ⟨u, hmem, by simp [hne]⟩

theorem updateTask_map_id {db : DB} {tid : Nat} {f : Task → Task}
    (hid : ∀ u, (f u).id = u.id) :
    (updateTask db tid f).tasks.map Task.id = db.tasks.map Task.id := by
  unfold updateTask
  simp only [List.map_map]
  apply List.map_congr_left
  intro t _
  by_cases h : t.id == tid <;> simp [Function.comp, h, hid]

theorem findProject_updateProject {db : DB} {pid : Nat} {f : Project → Project}
    (hid : ∀ u, (f u).id = u.id) (pid' : Nat) :
    findProject (updateProject db pid f) pid' =
      (findProject db pid').map (fun p => if p.id == pid then f p else p) := by
  unfold findProject updateProject
  simp only [List.find?_map]
  have hp : ((fun p : Project => p.id == pid') ∘ fun p => if p.id == pid then f p else p) =
      (fun p : Project => p.id == pid') := by
    funext p
    by_cases h : p.id == pid
    · simp [Function.comp, h, hid]
    · simp [Function.comp, h]
  rw [hp]

theorem findProject_mem {db : DB} {pid : Nat} {p : Project} (h : findProject db pid = some p) :
    p ∈ db.projects ∧ p.id = pid := by
  unfold findProject at h
  refine ⟨List.mem_of_find?_eq_some h, ?_⟩
  have := List.find?_some h
  simpa using this

theorem findProject_updateProject_self {db : DB} {pid : Nat} {f : Project → Project} {p : Project}
    (hid : ∀ u, (f u).id = u.id) (h : findProject db pid = some p) :
    findProject (updateProject db pid f) pid = some (f p) := by
  rw [findProject_updateProject hid]
  rw [h]
  have hevt := (findProject_mem h).2
  simp [hevt]

theorem findProject_updateTask (db : DB) (tid : Nat) (f : Task → Task) (pid : Nat) :
    findProject (updateTask db tid f) pid = findProject db pid := rfl

theorem findTask_updateProject (db : DB) (pid : Nat) (f : Project → Project) (tid : Nat) :
    findTask (updateProject db pid f) tid = findTask db tid := rfl

/-- Members with equal ids are equal when the id projection is duplicate-free. -/
theorem eq_of_mem_of_id_eq {db : DB} (hnd : (db.tasks.map Task.id).Nodup)
    {a b : Task} (ha : a ∈ db.tasks) (hb : b ∈ db.tasks) (hid : a.id = b.id) : a = b :=
  List.inj_on_of_nodup_map hnd ha hb hid

theorem findTask_of_mem {db : DB} (hnd : (db.tasks.map Task.id).Nodup)
    {t : Task} (ht : t ∈ db.tasks) : findTask db t.id = some t := by
  unfold findTask
  cases hf : db.tasks.find? (fun u => u.id == t.id) with
  | none =>
    exfalso
    have := List.find?_eq_none.mp hf t ht
    simp at this
  | some u =>
    have hu := List.mem_of_find?_eq_some hf
    have heq : u.id = t.id := by
      have := List.find?_some hf
      simpa using this
    rw [eq_of_mem_of_id_eq hnd hu ht heq]

/-! ## Readiness lemmas -/

/-- Whether the dependency `d` counts as satisfied in `_task_is_ready`'s loop:
the dependency row exists and its status is `COMPLETED`. -/
def depDone (db : DB) (d : Nat) : Bool :=
  match findTask db d with
  | none => false
  | some dep_task => dep_task.status == TaskStatus.completed

theorem task_is_ready_eq_all (db : DB) (t : Task) :
    task_is_ready db t = t.depends_on.all (depDone db) := by
  unfold task_is_ready depDone
  by_cases h : t.depends_on.isEmpty
  · rw [if_pos h]
    rw [List.isEmpty_iff] at h
    simp [h]
  · rw [if_neg h]

theorem list_all_congr {l : List Nat} {f g : Nat → Bool} (h : ∀ d ∈ l, f d = g d) :
    l.all f = l.all g := by
  induction l with
  | nil => rfl
  | cons a l ih =>
    simp only [List.all_cons]
    rw [h a (by simp), ih fun d hd => h d (by simp [hd])]

theorem task_is_ready_congr {db db' : DB} (h : ∀ d, depDone db' d = depDone db d) (t : Task) :
    task_is_ready db' t = task_is_ready db t := by
  rw [task_is_ready_eq_all, task_is_ready_eq_all]
  exact list_all_congr fun d _ => h d

theorem ready_dep_completed {db : DB} {t : Task} (h : task_is_ready db t = true) :
    ∀ d ∈ t.depends_on, ∃ c, findTask db d = some c ∧ c.status = TaskStatus.completed := by
  rw [task_is_ready_eq_all] at h
  intro d hd
  have := List.all_eq_true.mp h d hd
  unfold depDone at this
  cases hf : findTask db d with
  | none => rw [hf] at this; simp at this
  | some c =>
    rw [hf] at this
    exact ⟨c, rfl, by simpa using this⟩

/-! ## Dispatch-step lemmas -/

/-- The fields of a task row untouched by the claim step (everything except
`status` and `celery_task_id`). -/
def Task.core (t : Task) :
    Nat × Nat × String × TaskType × Option (String × String) × Option String ×
      Option String × List Nat × Option Nat × Nat :=
  (t.id, t.project_id, t.name, t.type, t.input_data, t.output_data,
   t.error_message, t.depends_on, t.completed_at, t.retry_count)

theorem updateTask_map_core {db : DB} {tid : Nat} {f : Task → Task}
    (hc : ∀ u, (f u).core = u.core) :
    (updateTask db tid f).tasks.map Task.core = db.tasks.map Task.core := by
  unfold updateTask
  simp only [List.map_map]
  apply List.map_congr_left
  intro t _
  by_cases h : t.id == tid <;> simp [Function.comp, h, hc]

theorem withHandleBump_tasks (db : DB) : (withHandleBump db).tasks = db.tasks := rfl

theorem withHandleBump_projects (db : DB) : (withHandleBump db).projects = db.projects := rfl

theorem withHandleBump_nextTaskId (db : DB) : (withHandleBump db).nextTaskId = db.nextTaskId := rfl

theorem findTask_withHandleBump (db : DB) (tid : Nat) :
    findTask (withHandleBump db) tid = findTask db tid := rfl

theorem route_invocation_taskId {t : Task} {inv : Invocation}
    (h : route_invocation t = some inv) : inv.taskId = t.id := by
  unfold route_invocation at h
  split at h <;> first
    | (injection h with h; subst h; rfl)
    | (cases h)

theorem schedule_task_projects (db : DB) (t : Task) :
    (schedule_task db t).1.projects = db.projects := by
  unfold schedule_task
  cases hr : route_invocation t <;> simp [hr, withHandleBump, updateTask]

theorem schedule_task_nextTaskId (db : DB) (t : Task) :
    (schedule_task db t).1.nextTaskId = db.nextTaskId := by
  unfold schedule_task
  cases hr : route_invocation t <;> simp [hr, withHandleBump, updateTask]

theorem schedule_task_map_id (db : DB) (t : Task) :
    (schedule_task db t).1.tasks.map Task.id = db.tasks.map Task.id := by
  unfold schedule_task
  cases hr : route_invocation t with
  | none =>
    simp only [hr]
    exact updateTask_map_id fun u => rfl
  | some inv =>
    simp only [hr]
    rw [withHandleBump_tasks]
    refine (updateTask_map_id ?_).trans (updateTask_map_id ?_) <;> exact fun u => rfl

theorem schedule_task_map_core (db : DB) (t : Task) :
    (schedule_task db t).1.tasks.map Task.core = db.tasks.map Task.core := by
  unfold schedule_task
  cases hr : route_invocation t with
  | none =>
    simp only [hr]
    exact updateTask_map_core fun u => rfl
  | some inv =>
    simp only [hr]
    rw [withHandleBump_tasks]
    refine (updateTask_map_core ?_).trans (updateTask_map_core ?_) <;> exact fun u => rfl

theorem schedule_task_find_ne {db : DB} {t : Task} {tid : Nat} (hne : tid ≠ t.id) :
    findTask (schedule_task db t).1 tid = findTask db tid := by
  unfold schedule_task
  cases hr : route_invocation t with
  | none =>
    simp only [hr]
    exact findTask_updateTask_ne (fun u => rfl) hne
  | some inv =>
    simp only [hr]
    rw [findTask_withHandleBump]
    refine (findTask_updateTask_ne ?_ hne).trans (findTask_updateTask_ne ?_ hne) <;>
      exact fun u => rfl

theorem schedule_task_find_self {db : DB} {t u : Task} (h : findTask db t.id = some u) :
    ∃ c, findTask (schedule_task db t).1 t.id =
      some { u with status := TaskStatus.queued, celery_task_id := c } := by
  unfold schedule_task
  cases hr : route_invocation t with
  | none =>
    refine ⟨u.celery_task_id, ?_⟩
    simp only [hr]
    exact findTask_updateTask_self (fun u => rfl) h
  | some inv =>
    refine ⟨some (updateTask db t.id fun u =>
      { u with status := TaskStatus.queued }).nextHandle, ?_⟩
    simp only [hr]
    rw [findTask_withHandleBump]
    have h1 : findTask (updateTask db t.id fun u => { u with status := TaskStatus.queued }) t.id =
        some { u with status := TaskStatus.queued } :=
      findTask_updateTask_self (fun u => rfl) h
    refine findTask_updateTask_self ?_ h1
    exact fun u => rfl

theorem schedule_task_invs {db : DB} {t : Task} :
    (schedule_task db t).2 = (route_invocation t).toList := by
  unfold schedule_task
  cases hr : route_invocation t <;> simp [hr]

theorem depDone_schedule_task {db : DB} {t u : Task} (h : findTask db t.id = some u)
    (hu : u.status ≠ TaskStatus.completed) (d : Nat) :
    depDone (schedule_task db t).1 d = depDone db d := by
  unfold depDone
  by_cases hd : d = t.id
  · subst hd
    obtain ⟨c, hc⟩ := schedule_task_find_self h
    rw [hc, h]
    simp [hu]
  · rw [schedule_task_find_ne hd]

/-! ## Scheduling-loop lemmas -/

theorem schedule_loop_nil (db : DB) : schedule_loop db [] = (db, []) := rfl

theorem schedule_loop_cons (db : DB) (a : Task) (rest : List Task) :
    schedule_loop db (a :: rest) =
      if task_is_ready db a then
        ((schedule_loop (schedule_task db a).1 rest).1,
          (schedule_task db a).2 ++ (schedule_loop (schedule_task db a).1 rest).2)
      else
        schedule_loop db rest := rfl

theorem schedule_loop_projects (ts : List Task) :
    ∀ db : DB, (schedule_loop db ts).1.projects = db.projects := by
  induction ts with
  | nil => intro db; rfl
  | cons a rest ih =>
    intro db
    rw [schedule_loop_cons]
    by_cases h : task_is_ready db a = true
    · rw [if_pos h]
      rw [ih, schedule_task_projects]
    · rw [if_neg h, ih]

theorem schedule_loop_nextTaskId (ts : List Task) :
    ∀ db : DB, (schedule_loop db ts).1.nextTaskId = db.nextTaskId := by
  induction ts with
  | nil => intro db; rfl
  | cons a rest ih =>
    intro db
    rw [schedule_loop_cons]
    by_cases h : task_is_ready db a = true
    · rw [if_pos h]
      rw [ih, schedule_task_nextTaskId]
    · rw [if_neg h, ih]

theorem schedule_loop_map_core (ts : List Task) :
    ∀ db : DB, (schedule_loop db ts).1.tasks.map Task.core = db.tasks.map Task.core := by
  induction ts with
  | nil => intro db; rfl
  | cons a rest ih =>
    intro db
    rw [schedule_loop_cons]
    by_cases h : task_is_ready db a = true
    · rw [if_pos h]
      rw [ih, schedule_task_map_core]
    · rw [if_neg h, ih]

theorem schedule_loop_map_id (ts : List Task) :
    ∀ db : DB, (schedule_loop db ts).1.tasks.map Task.id = db.tasks.map Task.id := by
  induction ts with
  | nil => intro db; rfl
  | cons a rest ih =>
    intro db
    rw [schedule_loop_cons]
    by_cases h : task_is_ready db a = true
    · rw [if_pos h]
      rw [ih, schedule_task_map_id]
    · rw [if_neg h, ih]

theorem schedule_loop_find_not_mem (ts : List Task) :
    ∀ db : DB, ∀ tid : Nat, (∀ u ∈ ts, u.id ≠ tid) →
      findTask (schedule_loop db ts).1 tid = findTask db tid := by
  induction ts with
  | nil => intro db tid _; rfl
  | cons a rest ih =>
    intro db tid hne
    rw [schedule_loop_cons]
    by_cases h : task_is_ready db a = true
    · rw [if_pos h]
      rw [ih _ _ fun u hu => hne u (by simp [hu])]
      exact schedule_task_find_ne fun heq => hne a (by simp) heq.symm
    · rw [if_neg h]
      exact ih _ _ fun u hu => hne u (by simp [hu])

theorem schedule_loop_invs_sublist (ts : List Task) :
    ∀ db : DB, ((schedule_loop db ts).2.map Invocation.taskId).Sublist (ts.map Task.id) := by
  induction ts with
  | nil => intro db; simp [schedule_loop_nil]
  | cons a rest ih =>
    intro db
    rw [schedule_loop_cons]
    by_cases h : task_is_ready db a = true
    · rw [if_pos h]
      simp only [List.map_append, List.map_cons]
      rw [schedule_task_invs]
      cases hr : route_invocation a with
      | none =>
        simp only [Option.toList, List.map_nil, List.nil_append]
        exact (ih _).cons _
      | some inv =>
        simp only [Option.toList, List.map_cons, List.map_nil, List.singleton_append]
        rw [route_invocation_taskId hr]
        exact (ih _).cons₂ _
    · rw [if_neg h]
      simp only [List.map_cons]
      exact (ih _).cons _

theorem schedule_loop_spec (ts : List Task) :
    ∀ db : DB,
      (ts.map Task.id).Nodup →
      (∀ u ∈ ts, findTask db u.id = some u ∧ u.status = TaskStatus.pending) →
      ∀ t ∈ ts,
        (task_is_ready db t = true →
          ∃ c, findTask (schedule_loop db ts).1 t.id =
            some { t with status := TaskStatus.queued, celery_task_id := c }) ∧
        (task_is_ready db t = false →
          findTask (schedule_loop db ts).1 t.id = some t ∧
          ∀ inv ∈ (schedule_loop db ts).2, inv.taskId ≠ t.id) := by
  induction ts with
  | nil => intro db _ _ t ht; exact absurd ht (by simp)
  | cons a rest ih =>
    intro db hnd hpend t ht
    have hnd_rest : (rest.map Task.id).Nodup := (List.nodup_cons.mp hnd).2
    have ha_not : a.id ∉ rest.map Task.id := (List.nodup_cons.mp hnd).1
    obtain ⟨hfa, hsa⟩ := hpend a (by simp)
    by_cases hr : task_is_ready db a = true
    · -- the head is claimed, then the loop continues on the updated store
      have hstat : a.status ≠ TaskStatus.completed := by
        rw [hsa]; intro hcon; cases hcon
      have hdep : ∀ d, depDone (schedule_task db a).1 d = depDone db d :=
        depDone_schedule_task hfa hstat
      have hready : ∀ u, task_is_ready (schedule_task db a).1 u = task_is_ready db u :=
        task_is_ready_congr hdep
      have hpend_rest : ∀ u ∈ rest,
          findTask (schedule_task db a).1 u.id = some u ∧ u.status = TaskStatus.pending := by
        intro u hu
        have hne : u.id ≠ a.id := by
          intro heq
          exact ha_not (heq ▸ List.mem_map_of_mem Task.id hu)
        exact ⟨(schedule_task_find_ne hne).trans (hpend u (by simp [hu])).1,
          (hpend u (by simp [hu])).2⟩
      rcases List.mem_cons.mp ht with hta | htr
      · subst hta
        constructor
        · intro _
          rw [schedule_loop_cons, if_pos hr]
          obtain ⟨c, hc⟩ := schedule_task_find_self hfa
          refine ⟨c, ?_⟩
          have hskip : findTask (schedule_loop (schedule_task db t).1 rest).1 t.id =
              findTask (schedule_task db t).1 t.id := by
            apply schedule_loop_find_not_mem
            intro u hu heq
            exact ha_not (heq ▸ List.mem_map_of_mem Task.id hu)
          exact hskip.trans hc
        · intro hfalse
          rw [hr] at hfalse
          cases hfalse
      · have hres := ih (schedule_task db a).1 hnd_rest hpend_rest t htr
        have htne : t.id ≠ a.id := by
          intro heq
          exact ha_not (heq ▸ List.mem_map_of_mem Task.id htr)
        constructor
        · intro htrue
          rw [schedule_loop_cons, if_pos hr]
          exact hres.1 ((hready t).trans htrue)
        · intro hfalse
          rw [schedule_loop_cons, if_pos hr]
          have hres2 := hres.2 ((hready t).trans hfalse)
          refine ⟨hres2.1, ?_⟩
          intro inv hinv
          rcases List.mem_append.mp hinv with h1 | h2
          · rw [schedule_task_invs] at h1
            cases hri : route_invocation a with
            | none => rw [hri] at h1; cases h1
            | some inv0 =>
              rw [hri] at h1
              simp only [Option.toList, List.mem_singleton] at h1
              subst h1
              rw [route_invocation_taskId hri]
              exact fun heq => htne heq.symm
          · exact hres2.2 inv h2
    · -- the head is skipped, the loop continues on the unchanged store
      have hrf : task_is_ready db a = false := by
        cases hb : task_is_ready db a with
        | false => rfl
        | true => exact absurd hb hr
      have hpend_rest : ∀ u ∈ rest,
          findTask db u.id = some u ∧ u.status = TaskStatus.pending :=
        fun u hu => hpend u (by simp [hu])
      rcases List.mem_cons.mp ht with hta | htr
      · subst hta
        constructor
        · intro htrue
          exact absurd htrue hr
        · intro _
          rw [schedule_loop_cons, if_neg hr]
          constructor
          · rw [schedule_loop_find_not_mem]
            · exact hfa
            · intro u hu heq
              exact ha_not (heq ▸ List.mem_map_of_mem Task.id hu)
          · intro inv hinv heq
            have hsub := schedule_loop_invs_sublist rest db
            have hmem : inv.taskId ∈ (schedule_loop db rest).2.map Invocation.taskId :=
              List.mem_map_of_mem Invocation.taskId hinv
            have := hsub.subset hmem
            rw [heq] at this
            exact ha_not this
      · rw [schedule_loop_cons, if_neg hr]
        exact ih db hnd_rest hpend_rest t htr

/-! ## The pending-task selection of `schedule_next_tasks` -/

theorem pending_filter_nodup {db : DB} (hwf : db.wf) (pid : Nat) :
    ((db.tasks.filter fun t =>
      t.project_id == pid && t.status == TaskStatus.pending).map Task.id).Nodup :=
  ((List.filter_sublist db.tasks).map Task.id).nodup hwf.1

theorem pending_filter_sound {db : DB} (hwf : db.wf) (pid : Nat) :
    ∀ u ∈ db.tasks.filter fun t =>
        t.project_id == pid && t.status == TaskStatus.pending,
      findTask db u.id = some u ∧ u.status = TaskStatus.pending := by
  intro u hu
  have hmem := List.mem_of_mem_filter hu
  have hprop := List.of_mem_filter hu
  simp only [Bool.and_eq_true, beq_iff_eq] at hprop
  exact ⟨findTask_of_mem hwf.1 hmem, hprop.2⟩

theorem mem_pending_filter {db : DB} {t : Task} (ht : t ∈ db.tasks) {pid : Nat}
    (hp : t.project_id = pid) (hs : t.status = TaskStatus.pending) :
    t ∈ db.tasks.filter fun t =>
      t.project_id == pid && t.status == TaskStatus.pending := by
  apply List.mem_filter.mpr
  exact ⟨ht, by simp [hp, hs]⟩

/-! ## Claim theorems -/

/-- C1: for every task whose status is not `PENDING`, the claim step of
`schedule_next_tasks` performs no change to that task's row and enqueues no
agent invocation for it; moreover no task id is claimed twice in one
invocation of the loop, so each ready task is claimed at most once. -/
theorem dispatcher_skips_non_pending (db : DB) (pid : Nat) (t : Task)
    (hwf : db.wf) (ht : t ∈ db.tasks) (hs : t.status ≠ TaskStatus.pending) :
    findTask (schedule_next_tasks db pid).1 t.id = findTask db t.id ∧
    (∀ inv ∈ (schedule_next_tasks db pid).2, inv.taskId ≠ t.id) ∧
    ((schedule_next_tasks db pid).2.map Invocation.taskId).Nodup := by
  unfold schedule_next_tasks
  have hne : ∀ u ∈ db.tasks.filter fun u =>
      u.project_id == pid && u.status == TaskStatus.pending, u.id ≠ t.id := by
    intro u hu heq
    have hmem := List.mem_of_mem_filter hu
    have hprop := List.of_mem_filter hu
    simp only [Bool.and_eq_true, beq_iff_eq] at hprop
    have : u = t := eq_of_mem_of_id_eq hwf.1 hmem ht heq
    rw [this] at hprop
    exact hs hprop.2
  refine ⟨schedule_loop_find_not_mem _ _ _ hne, ?_, ?_⟩
  · intro inv hinv heq
    have hsub := schedule_loop_invs_sublist
      (db.tasks.filter fun u => u.project_id == pid && u.status == TaskStatus.pending) db
    have hmem : inv.taskId ∈ _ := List.mem_map_of_mem Invocation.taskId hinv
    have hin := hsub.subset hmem
    obtain ⟨u, hu, hid⟩ := List.mem_map.mp hin
    exact hne u hu (hid.trans heq)
  · exact (schedule_loop_invs_sublist _ db).nodup (pending_filter_nodup hwf pid)

def taskW1 : Task :=
  { id := 1, project_id := 0, name := "Generate Backend Code", type := TaskType.codegen,
    status := TaskStatus.queued, input_data := none, output_data := none,
    error_message := none, depends_on := [], completed_at := none,
    retry_count := 0, celery_task_id := none }

def dbW1 : DB :=
  { projects := [], tasks := [taskW1], nextTaskId := 2, nextHandle := 0 }

theorem dispatcher_skips_non_pending_witness :
    findTask (schedule_next_tasks dbW1 0).1 taskW1.id = findTask dbW1 taskW1.id ∧
    (∀ inv ∈ (schedule_next_tasks dbW1 0).2, inv.taskId ≠ taskW1.id) ∧
    ((schedule_next_tasks dbW1 0).2.map Invocation.taskId).Nodup :=
  dispatcher_skips_non_pending dbW1 0 taskW1 (by decide) (by decide) (by decide)

/-- C6: a `PENDING` task of the project is claimed (its status moves to
`QUEUED`) by `schedule_next_tasks` when it is ready, and is left untouched with
no agent invoked when it is not; a task with empty `depends_on` is ready, and a
task with a missing or non-`COMPLETED` dependency is not ready. -/
theorem dispatch_iff_ready (db : DB) (pid : Nat) (t : Task)
    (hwf : db.wf) (ht : t ∈ db.tasks) (hp : t.project_id = pid)
    (hs : t.status = TaskStatus.pending) :
    (task_is_ready db t = true →
      ∃ c, findTask (schedule_next_tasks db pid).1 t.id =
        some { t with status := TaskStatus.queued, celery_task_id := c }) ∧
    (task_is_ready db t = false →
      findTask (schedule_next_tasks db pid).1 t.id = some t ∧
      ∀ inv ∈ (schedule_next_tasks db pid).2, inv.taskId ≠ t.id) ∧
    (t.depends_on = [] → task_is_ready db t = true) ∧
    ((∃ d ∈ t.depends_on, ∀ u, findTask db d = some u →
        u.status ≠ TaskStatus.completed) →
      task_is_ready db t = false) := by
  have hspec := schedule_loop_spec
    (db.tasks.filter fun u => u.project_id == pid && u.status == TaskStatus.pending) db
    (pending_filter_nodup hwf pid) (pending_filter_sound hwf pid) t
    (mem_pending_filter ht hp hs)
  refine ⟨hspec.1, hspec.2, ?_, ?_⟩
  · intro hdep
    unfold task_is_ready
    rw [hdep]
    rfl
  · rintro ⟨d, hd, hbad⟩
    cases hb : task_is_ready db t with
    | false => rfl
    | true =>
      obtain ⟨c, hc, hcs⟩ := ready_dep_completed hb d hd
      exact absurd hcs (hbad c hc)

def taskW6a : Task :=
  { id := 1, project_id := 0, name := "Generate Backend Code", type := TaskType.codegen,
    status := TaskStatus.pending, input_data := none, output_data := none,
    error_message := none, depends_on := [], completed_at := none,
    retry_count := 0, celery_task_id := none }

def taskW6b : Task :=
  { id := 2, project_id := 0, name := "Generate and Run Tests", type := TaskType.testing,
    status := TaskStatus.pending, input_data := none, output_data := none,
    error_message := none, depends_on := [1], completed_at := none,
    retry_count := 0, celery_task_id := none }

def dbW6 : DB :=
  { projects := [], tasks := [taskW6a, taskW6b], nextTaskId := 3, nextHandle := 0 }

theorem dispatch_iff_ready_witness :
    ((task_is_ready dbW6 taskW6b = true →
      ∃ c, findTask (schedule_next_tasks dbW6 0).1 taskW6b.id =
        some { taskW6b with status := TaskStatus.queued, celery_task_id := c }) ∧
    (task_is_ready dbW6 taskW6b = false →
      findTask (schedule_next_tasks dbW6 0).1 taskW6b.id = some taskW6b ∧
      ∀ inv ∈ (schedule_next_tasks dbW6 0).2, inv.taskId ≠ taskW6b.id) ∧
    (taskW6b.depends_on = [] → task_is_ready dbW6 taskW6b = true) ∧
    ((∃ d ∈ taskW6b.depends_on, ∀ u, findTask dbW6 d = some u →
        u.status ≠ TaskStatus.completed) →
      task_is_ready dbW6 taskW6b = false)) ∧
    task_is_ready dbW6 taskW6b = false :=
  ⟨dispatch_iff_ready dbW6 0 taskW6b (by decide) (by decide) (by decide) (by decide),
    by decide⟩

/-! ## State-projection helper lemmas -/

theorem findProject_eq_of_projects {db db' : DB} (h : db'.projects = db.projects)
    (pid : Nat) : findProject db' pid = findProject db pid := by
  unfold findProject
  rw [h]

theorem check_project_completion_tasks (db : DB) (now pid : Nat) :
    (check_project_completion db now pid).tasks = db.tasks := by
  unfold check_project_completion
  cases hf : findProject db pid with
  | none => rfl
  | some q =>
    by_cases hc : (db.tasks.filter fun t => t.project_id == pid).all
        fun t => t.status == TaskStatus.completed
    · rw [if_pos hc]
      rfl
    · rw [if_neg hc]

theorem findTask_check_project_completion (db : DB) (now pid tid : Nat) :
    findTask (check_project_completion db now pid) tid = findTask db tid := by
  unfold findTask
  rw [check_project_completion_tasks]

theorem check_preserves_completed_tasks (db : DB) (now pid : Nat) :
    (findProject (check_project_completion db now pid) pid).map Project.completed_tasks =
      (findProject db pid).map Project.completed_tasks := by
  unfold check_project_completion
  cases hf : findProject db pid with
  | none => exact congrArg (Option.map Project.completed_tasks) hf
  | some q =>
    by_cases hc : (db.tasks.filter fun t => t.project_id == pid).all
        fun t => t.status == TaskStatus.completed
    · rw [if_pos hc]
      have hself := findProject_updateProject_self
        (f := fun p => { p with status := ProjectStatus.ready, completed_at := some now })
        (fun u => rfl) hf
      rw [hself]
      rfl
    · rw [if_neg hc, hf]

theorem schedule_task_set_projects_fst (db : DB) (ps : List Project) (t : Task) :
    (schedule_task { db with projects := ps } t).1 =
      { (schedule_task db t).1 with projects := ps } := by
  unfold schedule_task
  cases hr : route_invocation t <;> rfl

theorem schedule_task_set_projects_snd (db : DB) (ps : List Project) (t : Task) :
    (schedule_task { db with projects := ps } t).2 = (schedule_task db t).2 := by
  unfold schedule_task
  cases hr : route_invocation t <;> rfl

theorem task_is_ready_set_projects (db : DB) (ps : List Project) (t : Task) :
    task_is_ready { db with projects := ps } t = task_is_ready db t := rfl

theorem schedule_loop_set_projects (ts : List Task) :
    ∀ (db : DB) (ps : List Project),
      schedule_loop { db with projects := ps } ts =
        ({ (schedule_loop db ts).1 with projects := ps }, (schedule_loop db ts).2) := by
  induction ts with
  | nil => intro db ps; rfl
  | cons a rest ih =>
    intro db ps
    rw [schedule_loop_cons, schedule_loop_cons]
    by_cases h : task_is_ready db a = true
    · rw [if_pos (by rw [task_is_ready_set_projects]; exact h), if_pos h]
      rw [schedule_task_set_projects_fst, schedule_task_set_projects_snd]
      rw [ih ((schedule_task db a).1) ps]
    · rw [if_neg (by rw [task_is_ready_set_projects]; exact h), if_neg h]
      exact ih db ps

/-- C3 amended: `schedule_next_tasks` never reads or writes the project rows;
its claimed tasks and emitted agent invocations are identical for every project
table, in particular whatever the project's status (`PAUSED`, `FAILED`, or
anything else). -/
theorem schedule_next_tasks_ignores_projects (db : DB) (pid : Nat) (ps : List Project) :
    schedule_next_tasks { db with projects := ps } pid =
      ({ (schedule_next_tasks db pid).1 with projects := ps },
        (schedule_next_tasks db pid).2) := by
  unfold schedule_next_tasks
  exact schedule_loop_set_projects _ db ps

def projX3a : Project :=
  { id := 0, name := "paused project", status := ProjectStatus.paused, spec := none,
    total_tasks := 1, completed_tasks := 0, failed_tasks := 0, last_error := none,
    error_count := 0, started_at := none, completed_at := none, updated_at := none }

def projX3b : Project :=
  { id := 1, name := "failed project", status := ProjectStatus.failed, spec := none,
    total_tasks := 1, completed_tasks := 0, failed_tasks := 0, last_error := none,
    error_count := 0, started_at := none, completed_at := none, updated_at := none }

def taskX3a : Task :=
  { id := 10, project_id := 0, name := "Generate Backend Code", type := TaskType.codegen,
    status := TaskStatus.pending, input_data := none, output_data := none,
    error_message := none, depends_on := [], completed_at := none,
    retry_count := 0, celery_task_id := none }

def taskX3b : Task :=
  { id := 11, project_id := 1, name := "Generate Backend Code", type := TaskType.codegen,
    status := TaskStatus.pending, input_data := none, output_data := none,
    error_message := none, depends_on := [], completed_at := none,
    retry_count := 0, celery_task_id := none }

def dbX3 : DB :=
  { projects := [projX3a, projX3b], tasks := [taskX3a, taskX3b],
    nextTaskId := 12, nextHandle := 0 }

/-- C3 counterexample: with project 0 `PAUSED` and project 1 `FAILED`, each
holding one ready `PENDING` task, `schedule_next_tasks` still claims the task
(`PENDING → QUEUED`) and invokes the matching agent for both projects. -/
theorem paused_or_failed_project_still_dispatches :
    (findProject dbX3 0).map Project.status = some ProjectStatus.paused ∧
    (findProject dbX3 1).map Project.status = some ProjectStatus.failed ∧
    (schedule_next_tasks dbX3 0).2 = [Invocation.codegen 10] ∧
    (findTask (schedule_next_tasks dbX3 0).1 10).map Task.status = some TaskStatus.queued ∧
    (schedule_next_tasks dbX3 1).2 = [Invocation.codegen 11] ∧
    (findTask (schedule_next_tasks dbX3 1).1 11).map Task.status = some TaskStatus.queued := by
  decide

/-! ## C2: completion handler -/

def taskX2 : Task :=
  { id := 1, project_id := 0, name := "Generate Backend Code", type := TaskType.codegen,
    status := TaskStatus.completed, input_data := none, output_data := some "out1",
    error_message := none, depends_on := [], completed_at := some 3,
    retry_count := 0, celery_task_id := some 0 }

def projX2 : Project :=
  { id := 0, name := "p", status := ProjectStatus.coding, spec := none,
    total_tasks := 1, completed_tasks := 1, failed_tasks := 0, last_error := none,
    error_count := 0, started_at := some 1, completed_at := none, updated_at := none }

def dbX2 : DB :=
  { projects := [projX2], tasks := [taskX2], nextTaskId := 2, nextHandle := 1 }

/-- C2 counterexample: the task is already `COMPLETED` and the project's
completed-task counter is 1, yet a second delivery of the completion drives the
counter to 2 (and restamps the completion time) — `on_task_complete` checks no
expected status and is therefore not idempotent. -/
theorem on_task_complete_not_idempotent :
    (findTask dbX2 1).map Task.status = some TaskStatus.completed ∧
    (findProject dbX2 0).map Project.completed_tasks = some 1 ∧
    ∃ r, on_task_complete dbX2 7 1 "out2" = some r ∧
      (findProject r.1 0).map Project.completed_tasks = some 2 ∧
      (findTask r.1 1).map Task.completed_at = some (some 7) := by
  decide

/-- C2 amended: `on_task_complete` on an existing task unconditionally marks it
`COMPLETED` (whatever its current status) and increments the owning project's
completed-task counter on every delivery, so a duplicate delivery increments
the counter a second time. -/
theorem on_task_complete_always_increments (db : DB) (now tid : Nat) (out : String)
    (t : Task) (p : Project) (hwf : db.wf) (ht : findTask db tid = some t)
    (hp : findProject db t.project_id = some p) :
    ∃ r, on_task_complete db now tid out = some r ∧
      (findTask r.1 tid).map Task.status = some TaskStatus.completed ∧
      (findProject r.1 t.project_id).map Project.completed_tasks =
        some (p.completed_tasks + 1) := by
  have hcomplete : ∀ u : Task,
      ({ u with status := TaskStatus.completed,
                completed_at := some now, output_data := some out } : Task).id = u.id :=
    fun u => rfl
  have hp1 : findProject (updateTask db tid fun u =>
      { u with status := TaskStatus.completed, completed_at := some now,
               output_data := some out }) t.project_id = some p := hp
  simp only [on_task_complete, ht, hp1]
  refine ⟨_, rfl, ?_, ?_⟩
  · -- the completed row is not re-selected by the scheduling loop
    set db1 := updateTask db tid fun u =>
      { u with status := TaskStatus.completed, completed_at := some now,
               output_data := some out } with hdb1
    set db2 := updateProject db1 t.project_id fun p =>
      { p with completed_tasks := p.completed_tasks + 1 } with hdb2
    have hfind1 : findTask db1 tid =
        some { t with status := TaskStatus.completed, completed_at := some now, output_data := some out } :=
      findTask_updateTask_self hcomplete ht
    have hnd1 : (db1.tasks.map Task.id).Nodup := by
      rw [hdb1, updateTask_map_id hcomplete]
      exact hwf.1
    have hnd2 : (db2.tasks.map Task.id).Nodup := hnd1
    have hfind2 : findTask db2 tid =
        some { t with status := TaskStatus.completed, completed_at := some now, output_data := some out } := hfind1
    rw [findTask_check_project_completion]
    unfold schedule_next_tasks
    rw [schedule_loop_find_not_mem]
    · rw [hfind2]
      rfl
    · intro u hu heq
      have hmem := List.mem_of_mem_filter hu
      have hprop := List.of_mem_filter hu
      simp only [Bool.and_eq_true, beq_iff_eq] at hprop
      have := findTask_of_mem hnd2 hmem
      rw [heq, hfind2] at this
      have hstat := congrArg (fun o => Option.map Task.status o) this
      simp [hprop.2] at hstat
  · set db1 := updateTask db tid fun u =>
      { u with status := TaskStatus.completed, completed_at := some now,
               output_data := some out } with hdb1
    have hp2 : findProject (updateProject db1 t.project_id fun p =>
        { p with completed_tasks := p.completed_tasks + 1 }) t.project_id =
        some { p with completed_tasks := p.completed_tasks + 1 } :=
      findProject_updateProject_self (fun u => rfl) hp1
    rw [check_preserves_completed_tasks]
    unfold schedule_next_tasks
    rw [findProject_eq_of_projects (schedule_loop_projects _ _) t.project_id]
    rw [hp2]
    rfl

theorem on_task_complete_always_increments_witness :
    ∃ r, on_task_complete dbX2 7 1 "out2" = some r ∧
      (findTask r.1 1).map Task.status = some TaskStatus.completed ∧
      (findProject r.1 taskX2.project_id).map Project.completed_tasks =
        some (projX2.completed_tasks + 1) :=
  on_task_complete_always_increments dbX2 7 1 "out2" taskX2 projX2
    (by decide) (by decide) (by decide)

/-! ## C10: fixer failure path -/

/-- C10: when the fix agent's own attempt fails, the original task is moved
directly to terminal `FAILED` with the failure message recorded, no agent
invocation is enqueued, every project row is left untouched (so the project's
status, failed-task counter and last-error field are unchanged and the project
is not marked `FAILED` through this path), and every other task row is left in
place unchanged. -/
theorem fixer_failure_frame (db : DB) (tid : Nat) (e : String) (t : Task)
    (ht : findTask db tid = some t) :
    (fixer_on_failure db tid e).2 = [] ∧
    (fixer_on_failure db tid e).1.projects = db.projects ∧
    findTask (fixer_on_failure db tid e).1 tid =
      some { t with status := TaskStatus.failed, error_message := some ("Fix attempt failed: " ++ e) } ∧
    ∀ u ∈ db.tasks, u.id ≠ tid → u ∈ (fixer_on_failure db tid e).1.tasks := by
  refine ⟨rfl, rfl, ?_, ?_⟩
  · exact findTask_updateTask_self (fun u => rfl) ht
  · intro u hu hne
    exact mem_updateTask_of_ne hu hne

def taskX10 : Task :=
  { id := 1, project_id := 0, name := "Generate Backend Code", type := TaskType.codegen,
    status := TaskStatus.retrying, input_data := none, output_data := none,
    error_message := some "boom", depends_on := [], completed_at := none,
    retry_count := 1, celery_task_id := some 0 }

def dbX10 : DB :=
  { projects := [projX2], tasks := [taskX10], nextTaskId := 2, nextHandle := 1 }

theorem fixer_failure_frame_witness :
    (fixer_on_failure dbX10 1 "llm down").2 = [] ∧
    (fixer_on_failure dbX10 1 "llm down").1.projects = dbX10.projects ∧
    findTask (fixer_on_failure dbX10 1 "llm down").1 1 =
      some { taskX10 with status := TaskStatus.failed, error_message := some ("Fix attempt failed: " ++ "llm down") } ∧
    ∀ u ∈ dbX10.tasks, u.id ≠ 1 → u ∈ (fixer_on_failure dbX10 1 "llm down").1.tasks :=
  fixer_failure_frame dbX10 1 "llm down" taskX10 (by decide)

/-! ## C9: resume -/

def projX9 : Project :=
  { id := 0, name := "p", status := ProjectStatus.testing, spec := none,
    total_tasks := 1, completed_tasks := 0, failed_tasks := 0, last_error := none,
    error_count := 0, started_at := some 1, completed_at := none, updated_at := none }

def taskX9 : Task :=
  { id := 1, project_id := 0, name := "Generate Backend Code", type := TaskType.codegen,
    status := TaskStatus.pending, input_data := none, output_data := none,
    error_message := none, depends_on := [], completed_at := none,
    retry_count := 0, celery_task_id := none }

def dbX9 : DB :=
  { projects := [projX9], tasks := [taskX9], nextTaskId := 2, nextHandle := 0 }

/-- C9 counterexample: a project paused while in phase `TESTING` is resumed
into `CODING`, not its prior phase; and although the project holds a ready
`PENDING` task, resuming leaves it `PENDING` — no resolver/dispatch cycle is
invoked by `resume_project`. -/
theorem resume_does_not_restore_prior_phase :
    (findProject dbX9 0).map Project.status = some ProjectStatus.testing ∧
    ((pause_project dbX9 5 0).map fun dbp =>
      (findProject dbp 0).map Project.status) = some (some ProjectStatus.paused) ∧
    (((pause_project dbX9 5 0).bind fun dbp => resume_project dbp 6 0).map fun dbr =>
      ((findProject dbr 0).map Project.status, (findTask dbr 1).map Task.status)) =
      some (some ProjectStatus.coding, some TaskStatus.pending) := by
  decide

/-- C9 amended: `resume_project` on an existing `PAUSED` project always sets
the status to `CODING` (regardless of the phase held before pausing) and does
not invoke the scheduling loop — every task row is left exactly as it was. -/
theorem update_project_status_spec (db : DB) (now pid : Nat) (st : ProjectStatus)
    (em : Option String) (p : Project) (hp : findProject db pid = some p) :
    ∃ db', update_project_status db now pid st em = some db' ∧
      (findProject db' pid).map Project.status = some st ∧
      db'.tasks = db.tasks := by
  simp only [update_project_status, hp]
  refine ⟨_, rfl, ?_, rfl⟩
  refine Eq.trans (congrArg (Option.map Project.status)
    (findProject_updateProject_self ?_ hp)) ?_
  · intro u
    cases st <;> cases em <;> rfl
  · cases st <;> cases em <;> rfl

/-- C9 amended: `resume_project` on an existing `PAUSED` project always sets
the status to `CODING` (regardless of the phase held before pausing) and does
not invoke the scheduling loop — every task row is left exactly as it was. -/
theorem resume_sets_coding (db : DB) (now pid : Nat) (p : Project)
    (hp : findProject db pid = some p) (hst : p.status = ProjectStatus.paused) :
    ∃ db', resume_project db now pid = some db' ∧
      (findProject db' pid).map Project.status = some ProjectStatus.coding ∧
      db'.tasks = db.tasks := by
  have h1 : resume_project db now pid =
      update_project_status db now pid ProjectStatus.coding none := by
    simp only [resume_project, hp, hst]
    simp
  obtain ⟨db', h2, h3, h4⟩ :=
    update_project_status_spec db now pid ProjectStatus.coding none p hp
  exact ⟨db', h1.trans h2, h3, h4⟩

theorem resume_sets_coding_witness :
    ∃ db', resume_project { dbX9 with projects := [{ projX9 with
        status := ProjectStatus.paused }] } 6 0 = some db' ∧
      (findProject db' 0).map Project.status = some ProjectStatus.coding ∧
      db'.tasks = ({ dbX9 with projects := [{ projX9 with
        status := ProjectStatus.paused }] } : DB).tasks :=
  resume_sets_coding _ 6 0 { projX9 with status := ProjectStatus.paused }
    (by decide) (by decide)

/-! ## C4: bounded retry spawns the fix agent -/

/-- C4: when a task fails with `retry_count < max_retries`, the failure handler
sets the task to `RETRYING`, increments its retry counter by exactly one,
records the error text, and emits exactly one fixer invocation carrying the
original task id and the error text, touching no project row; and on the fix
agent's success the original task is reset to `PENDING` (error cleared) and the
scheduling loop is re-invoked for its project. -/
theorem failure_with_retry_budget_spawns_fix (db : DB) (max_retries tid : Nat)
    (err : String) (t : Task) (ht : findTask db tid = some t)
    (hlt : t.retry_count < max_retries) :
    (∃ db', on_task_failure db max_retries tid err = some (db', [Invocation.fixer tid err]) ∧
      findTask db' tid = some { t with status := TaskStatus.retrying, retry_count := t.retry_count + 1, error_message := some err, celery_task_id := some db.nextHandle } ∧
      db'.projects = db.projects) ∧
    (∀ (db2 : DB) (pid : Nat) (u : Task), findTask db2 tid = some u →
      ∃ dbr, fixer_on_success db2 tid pid = schedule_next_tasks dbr pid ∧
        findTask dbr tid = some { u with status := TaskStatus.pending, error_message := none }) := by
  constructor
  · simp only [on_task_failure, ht]
    rw [if_pos hlt]
    refine ⟨_, rfl, ?_, rfl⟩
    rw [findTask_withHandleBump]
    have h1 : findTask (updateTask db tid fun v =>
        { v with status := TaskStatus.retrying, retry_count := v.retry_count + 1, error_message := some err }) tid =
        some { t with status := TaskStatus.retrying, retry_count := t.retry_count + 1, error_message := some err } :=
      findTask_updateTask_self (fun v => rfl) ht
    refine findTask_updateTask_self ?_ h1
    exact fun v => rfl
  · intro db2 pid u hu
    refine ⟨updateTask db2 tid fun v =>
      { v with status := TaskStatus.pending, error_message := none }, rfl, ?_⟩
    exact findTask_updateTask_self (fun v => rfl) hu

def taskW4 : Task :=
  { id := 1, project_id := 0, name := "Generate Backend Code", type := TaskType.codegen,
    status := TaskStatus.running, input_data := none, output_data := none,
    error_message := none, depends_on := [], completed_at := none,
    retry_count := 0, celery_task_id := some 0 }

def dbW4 : DB :=
  { projects := [projX2], tasks := [taskW4], nextTaskId := 2, nextHandle := 1 }

def taskW4r : Task :=
  { taskW4 with status := TaskStatus.retrying, retry_count := 1,
                error_message := some "tests failed", celery_task_id := some 1 }

def dbW4r : DB :=
  { projects := [projX2], tasks := [taskW4r], nextTaskId := 2, nextHandle := 2 }

theorem failure_with_retry_budget_spawns_fix_witness :
    (∃ db', on_task_failure dbW4 2 1 "tests failed" = some (db', [Invocation.fixer 1 "tests failed"]) ∧
      findTask db' 1 = some { taskW4 with status := TaskStatus.retrying, retry_count := taskW4.retry_count + 1, error_message := some "tests failed", celery_task_id := some dbW4.nextHandle } ∧
      db'.projects = dbW4.projects) ∧
    (∃ dbr, fixer_on_success dbW4r 1 0 = schedule_next_tasks dbr 0 ∧
      findTask dbr 1 = some { taskW4r with status := TaskStatus.pending, error_message := none }) :=
  ⟨(failure_with_retry_budget_spawns_fix dbW4 2 1 "tests failed" taskW4
      (by decide) (by decide)).1,
    (failure_with_retry_budget_spawns_fix dbW4 2 1 "tests failed" taskW4
      (by decide) (by decide)).2 dbW4r 0 taskW4r (by decide)⟩

/-! ## C5: retry exhaustion -/

/-- C5: when a task fails with `retry_count ≥ max_retries`, the failure handler
moves it to terminal `FAILED` with the error recorded, emits no invocation,
increments the owning project's failed-task counter by one, sets the project's
status to `FAILED` with last error `"Task <name> failed: <error>"`; and on every
path of the failure handler a store whose retry counters are all bounded by
`max_retries` stays bounded, so `retry_count` never exceeds `max_retries`. -/
theorem failure_exhausted_fails_project (db : DB) (max_retries tid : Nat)
    (err : String) (t : Task) (p : Project) (ht : findTask db tid = some t)
    (hge : ¬ t.retry_count < max_retries) (hp : findProject db t.project_id = some p) :
    (∃ db', on_task_failure db max_retries tid err = some (db', []) ∧
      findTask db' tid = some { t with status := TaskStatus.failed, error_message := some err } ∧
      findProject db' t.project_id = some { p with failed_tasks := p.failed_tasks + 1, status := ProjectStatus.failed, last_error := some ("Task " ++ t.name ++ " failed: " ++ err) }) ∧
    (∀ (db0 : DB) (tid0 : Nat) (err0 : String) (r : DB × List Invocation),
      (db0.tasks.map Task.id).Nodup →
      (∀ u ∈ db0.tasks, u.retry_count ≤ max_retries) →
      on_task_failure db0 max_retries tid0 err0 = some r →
      ∀ u ∈ r.1.tasks, u.retry_count ≤ max_retries) := by
  constructor
  · have hp1 : findProject (updateTask db tid fun v =>
        { v with status := TaskStatus.failed, error_message := some err }) t.project_id =
        some p := hp
    simp only [on_task_failure, ht]
    rw [if_neg hge]
    simp only [hp1]
    refine ⟨_, rfl, ?_, ?_⟩
    · exact findTask_updateTask_self (fun v => rfl) ht
    · refine Eq.trans (findProject_updateProject_self ?_ hp1) ?_
      · exact fun u => rfl
      · rfl
  · intro db0 tid0 err0 r hnd hbound hr u hu
    cases hti : findTask db0 tid0 with
    | none =>
      simp only [on_task_failure, hti] at hr
      cases hr
      exact hbound u hu
    | some task =>
      by_cases hlt : task.retry_count < max_retries
      · simp only [on_task_failure, hti] at hr
        rw [if_pos hlt] at hr
        cases hr
        simp only [withHandleBump_tasks, updateTask, List.map_map, List.mem_map] at hu
        obtain ⟨v, hv, hvu⟩ := hu
        subst hvu
        by_cases hid : v.id == tid0
        · have hvt : v = task := by
            have hfv := findTask_of_mem hnd hv
            rw [show v.id = tid0 by simpa using hid] at hfv
            rw [hfv] at hti
            exact (Option.some.injEq _ _).mp hti
          simp only [Function.comp, hid, if_pos]
          have hle : task.retry_count + 1 ≤ max_retries := hlt
          simp only [hvt]
          exact hle
        · simp only [Function.comp, hid]
          simp only [Bool.false_eq_true, if_false]
          rw [if_neg hid]
          exact hbound v hv
      · simp only [on_task_failure, hti] at hr
        rw [if_neg hlt] at hr
        cases hpf : findProject (updateTask db0 tid0 fun v =>
            { v with status := TaskStatus.failed, error_message := some err0 })
            task.project_id with
        | none =>
          rw [hpf] at hr
          cases hr
        | some q =>
          rw [hpf] at hr
          cases hr
          simp only [updateProject_tasks, updateTask, List.mem_map] at hu
          obtain ⟨v, hv, hvu⟩ := hu
          subst hvu
          by_cases hid : v.id == tid0
          · rw [if_pos hid]
            exact hbound v hv
          · rw [if_neg hid]
            exact hbound v hv

def taskW5 : Task :=
  { id := 1, project_id := 0, name := "Generate Backend Code", type := TaskType.codegen,
    status := TaskStatus.running, input_data := none, output_data := none,
    error_message := none, depends_on := [], completed_at := none,
    retry_count := 2, celery_task_id := some 0 }

def dbW5 : DB :=
  { projects := [projX2], tasks := [taskW5], nextTaskId := 2, nextHandle := 1 }

theorem failure_exhausted_fails_project_witness :
    (∃ db', on_task_failure dbW5 2 1 "boom" = some (db', []) ∧
      findTask db' 1 = some { taskW5 with status := TaskStatus.failed, error_message := some "boom" } ∧
      findProject db' 0 = some { projX2 with failed_tasks := projX2.failed_tasks + 1, status := ProjectStatus.failed, last_error := some ("Task " ++ taskW5.name ++ " failed: " ++ "boom") }) ∧
    (∀ u ∈ (on_task_failure dbW5 2 1 "boom").get (by decide) |>.1.tasks,
      u.retry_count ≤ 2) :=
  ⟨(failure_exhausted_fails_project dbW5 2 1 "boom" taskW5 projX2
      (by decide) (by decide) (by decide)).1,
    by decide⟩

/-! ## C7: terminal check -/

/-- C7: for an existing project not already `READY`, the terminal check sets
`status = READY` iff every task of the project is `COMPLETED`, and when it does
it stamps the completion time; when some task is not `COMPLETED` the store is
left entirely unchanged (so the orchestration core's only `READY` assignment
site never fires). -/
theorem check_ready_iff_all_completed (db : DB) (now pid : Nat) (p : Project)
    (hp : findProject db pid = some p) (hnr : p.status ≠ ProjectStatus.ready) :
    ((findProject (check_project_completion db now pid) pid).map Project.status =
        some ProjectStatus.ready ↔
      ∀ t ∈ db.tasks, t.project_id = pid → t.status = TaskStatus.completed) ∧
    ((∀ t ∈ db.tasks, t.project_id = pid → t.status = TaskStatus.completed) →
      (findProject (check_project_completion db now pid) pid).map Project.completed_at =
        some (some now)) ∧
    (¬ (∀ t ∈ db.tasks, t.project_id = pid → t.status = TaskStatus.completed) →
      check_project_completion db now pid = db) := by
  have hall : ((db.tasks.filter fun t => t.project_id == pid).all
      fun t => t.status == TaskStatus.completed) = true ↔
      (∀ t ∈ db.tasks, t.project_id = pid → t.status = TaskStatus.completed) := by
    simp only [List.all_eq_true, List.mem_filter, beq_iff_eq, and_imp]
  simp only [check_project_completion, hp]
  by_cases hc : ((db.tasks.filter fun t => t.project_id == pid).all
      fun t => t.status == TaskStatus.completed) = true
  · rw [if_pos hc]
    have hself : (findProject (updateProject db pid fun p =>
        { p with status := ProjectStatus.ready, completed_at := some now }) pid).map
          Project.status = some ProjectStatus.ready := by
      refine Eq.trans (congrArg (Option.map Project.status)
        (findProject_updateProject_self ?_ hp)) ?_
      · exact fun u => rfl
      · rfl
    have hself2 : (findProject (updateProject db pid fun p =>
        { p with status := ProjectStatus.ready, completed_at := some now }) pid).map
          Project.completed_at = some (some now) := by
      refine Eq.trans (congrArg (Option.map Project.completed_at)
        (findProject_updateProject_self ?_ hp)) ?_
      · exact fun u => rfl
      · rfl
    refine ⟨?_, fun _ => hself2, fun hno => absurd (hall.mp hc) hno⟩
    constructor
    · intro _
      exact hall.mp hc
    · intro _
      exact hself
  · rw [if_neg hc]
    refine ⟨?_, ?_, fun _ => rfl⟩
    · rw [hp]
      constructor
      · intro hred
        exfalso
        apply hnr
        simpa using hred
      · intro hco
        exact absurd (hall.mpr hco) hc
    · intro hco
      exact absurd (hall.mpr hco) hc

def taskW7 : Task :=
  { id := 1, project_id := 0, name := "Generate Backend Code", type := TaskType.codegen,
    status := TaskStatus.completed, input_data := none, output_data := some "o",
    error_message := none, depends_on := [], completed_at := some 4,
    retry_count := 0, celery_task_id := some 0 }

def projW7 : Project :=
  { id := 0, name := "p", status := ProjectStatus.coding, spec := none,
    total_tasks := 1, completed_tasks := 1, failed_tasks := 0, last_error := none,
    error_count := 0, started_at := some 1, completed_at := none, updated_at := none }

def dbW7 : DB :=
  { projects := [projW7], tasks := [taskW7], nextTaskId := 2, nextHandle := 1 }

theorem check_ready_iff_all_completed_witness :
    ((findProject (check_project_completion dbW7 9 0) 0).map Project.status =
        some ProjectStatus.ready ↔
      ∀ t ∈ dbW7.tasks, t.project_id = 0 → t.status = TaskStatus.completed) ∧
    ((∀ t ∈ dbW7.tasks, t.project_id = 0 → t.status = TaskStatus.completed) →
      (findProject (check_project_completion dbW7 9 0) 0).map Project.completed_at =
        some (some 9)) ∧
    (¬ (∀ t ∈ dbW7.tasks, t.project_id = 0 → t.status = TaskStatus.completed) →
      check_project_completion dbW7 9 0 = dbW7) :=
  check_ready_iff_all_completed dbW7 9 0 projW7 (by decide) (by decide)

/-! ## C8: graph expansion on planning completion -/

/-- Stated from the claim's words (not from the source): the components the
specification document declares, in the order the source reads them; used to
compare the code's expansion against "one CODEGEN task per declared
component". -/
def declaredComponents (spec : SpecDoc) : List String :=
  (match spec.backend with | some _ => ["backend"] | none => []) ++
  (match spec.frontend with | some _ => ["frontend"] | none => []) ++
  (match spec.infrastructure with | some _ => ["infrastructure"] | none => [])

theorem spec_codegen_tasks_components (pid : Nat) (spec : SpecDoc) :
    (spec_codegen_tasks pid spec).map (fun t => t.input_data.map Prod.fst) =
      (declaredComponents spec).map some := by
  obtain ⟨b, f, i⟩ := spec
  cases b <;> cases f <;> cases i <;> rfl

theorem spec_codegen_tasks_length (pid : Nat) (spec : SpecDoc) :
    (spec_codegen_tasks pid spec).length = (declaredComponents spec).length := by
  obtain ⟨b, f, i⟩ := spec
  cases b <;> cases f <;> cases i <;> rfl

theorem spec_codegen_tasks_fields (pid : Nat) (spec : SpecDoc) :
    ∀ t ∈ spec_codegen_tasks pid spec,
      t.type = TaskType.codegen ∧ t.depends_on = [] ∧
        t.status = TaskStatus.pending ∧ t.project_id = pid := by
  obtain ⟨b, f, i⟩ := spec
  cases b <;> cases f <;> cases i <;> intro t ht <;>
    simp only [spec_codegen_tasks, mkSpecTask, List.mem_append, List.mem_singleton,
      List.not_mem_nil, or_false, false_or, or_assoc] at ht <;>
    (rcases ht with rfl | rfl | rfl
     all_goals exact ⟨rfl, rfl, rfl, rfl⟩)

theorem assignIds_length (base : Nat) (l : List Task) :
    (assignIds base l).length = l.length := by
  induction l generalizing base with
  | nil => rfl
  | cons a l ih => simp [assignIds, ih]

theorem assignIds_append (base : Nat) (l1 l2 : List Task) :
    assignIds base (l1 ++ l2) = assignIds base l1 ++ assignIds (base + l1.length) l2 := by
  induction l1 generalizing base with
  | nil => simp [assignIds]
  | cons a l1 ih =>
    show { a with id := base } :: assignIds (base + 1) (l1 ++ l2) =
      { a with id := base } ::
        (assignIds (base + 1) l1 ++ assignIds (base + (a :: l1).length) l2)
    rw [ih (base + 1)]
    congr 3
    simp only [List.length_cons]
    omega

theorem assignIds_map_id (base : Nat) (l : List Task) :
    (assignIds base l).map Task.id = (List.range l.length).map (base + ·) := by
  induction l generalizing base with
  | nil => rfl
  | cons a l ih =>
    simp only [assignIds, List.map_cons, List.length_cons, List.range_succ_eq_map,
      List.map_map, ih]
    simp only [Nat.add_zero]
    congr 1
    apply List.map_congr_left
    intro x _
    simp only [Function.comp]
    omega

theorem mem_assignIds {base : Nat} {l : List Task} {u : Task}
    (hu : u ∈ assignIds base l) :
    ∃ i v, l.get? i = some v ∧ u = { v with id := base + i } := by
  induction l generalizing base with
  | nil => cases hu
  | cons a l ih =>
    rcases List.mem_cons.mp hu with h | h
    · exact ⟨0, a, rfl, by simpa using h⟩
    · obtain ⟨i, v, hget, rfl⟩ := ih h
      exact ⟨i + 1, v, hget, by rw [show base + (i + 1) = base + 1 + i by omega]⟩

theorem find?_assignIds_lt {l : List Task} {i : Nat} (base : Nat) (h : i < l.length) :
    (assignIds base l).find? (fun u => u.id == base + i) =
      (l.get? i).map (fun v => { v with id := base + i }) := by
  induction l generalizing base i with
  | nil => cases h
  | cons a l ih =>
    cases i with
    | zero =>
      rw [assignIds]
      rw [List.find?_cons_of_pos _ (by simp)]
      simp [List.get?]
    | succ i =>
      rw [assignIds]
      rw [List.find?_cons_of_neg _ (by
        show ¬ (({ a with id := base } : Task).id == base + (i + 1)) = true
        simp only [show ({ a with id := base } : Task).id = base from rfl, beq_iff_eq]
        omega)]
      rw [show base + (i + 1) = base + 1 + i by omega]
      rw [ih (base + 1) (by simpa using Nat.lt_of_succ_lt_succ h)]
      rfl

theorem find?_assignIds_none {l : List Task} (base x : Nat)
    (hx : x < base ∨ base + l.length ≤ x) :
    (assignIds base l).find? (fun u => u.id == x) = none := by
  induction l generalizing base with
  | nil => rfl
  | cons a l ih =>
    rw [assignIds]
    rw [List.find?_cons_of_neg _ (by
      show ¬ (({ a with id := base } : Task).id == x) = true
      simp only [show ({ a with id := base } : Task).id = base from rfl, beq_iff_eq]
      rcases hx with hx | hx
      · omega
      · simp only [List.length_cons] at hx
        omega)]
    apply ih
    rcases hx with hx | hx
    · omega
    · simp only [List.length_cons] at hx
      omega

theorem taskType_beq_eq_decide (x y : TaskType) : (x == y) = decide (x = y) := rfl

theorem batch_with_deps_eq (base pid : Nat) (spec : SpecDoc) :
    batch_with_deps base pid spec =
      assignIds base (spec_codegen_tasks pid spec) ++
        [{ mkSpecTask pid "Generate and Run Tests" TaskType.testing none with
           id := base + (spec_codegen_tasks pid spec).length,
           depends_on := (List.range (spec_codegen_tasks pid spec).length).map (base + ·) },
         { mkSpecTask pid "Deploy Application" TaskType.deployment none with
           id := base + (spec_codegen_tasks pid spec).length + 1,
           depends_on := [base + (spec_codegen_tasks pid spec).length] }] := by
  obtain ⟨b, f, i⟩ := spec
  cases b <;> cases f <;> cases i <;>
    simp [batch_with_deps, spec_raw_tasks, spec_codegen_tasks, mkSpecTask, assignIds,
      List.range_succ, List.filter, taskType_beq_eq_decide]

theorem core_eq_fields {a b : Task} (h : a.core = b.core) :
    a.id = b.id ∧ a.project_id = b.project_id ∧ a.type = b.type ∧
      a.input_data = b.input_data ∧ a.depends_on = b.depends_on := by
  unfold Task.core at h
  simp only [Prod.mk.injEq] at h
  exact ⟨h.1, h.2.1, h.2.2.2.1, h.2.2.2.2.1, h.2.2.2.2.2.2.2.1⟩

theorem find?_core_eq {l1 l2 : List Task} (h : l1.map Task.core = l2.map Task.core)
    (tid : Nat) :
    (l1.find? fun t => t.id == tid).map Task.core =
      (l2.find? fun t => t.id == tid).map Task.core := by
  induction l1 generalizing l2 with
  | nil =>
    cases l2 with
    | nil => rfl
    | cons b l2 => simp at h
  | cons a l1 ih =>
    cases l2 with
    | nil => simp at h
    | cons b l2 =>
      simp only [List.map_cons, List.cons.injEq] at h
      obtain ⟨hab, hrest⟩ := h
      have hid : a.id = b.id := (core_eq_fields hab).1
      by_cases hc : a.id == tid
      · rw [List.find?_cons_of_pos (p := fun t : Task => t.id == tid) _ hc,
          List.find?_cons_of_pos (p := fun t : Task => t.id == tid) _ (by
            show (b.id == tid) = true
            rw [← hid]
            exact hc)]
        simp [hab]
      · rw [List.find?_cons_of_neg (p := fun t : Task => t.id == tid) _ hc,
          List.find?_cons_of_neg (p := fun t : Task => t.id == tid) _ (by
            show ¬ (b.id == tid) = true
            rw [← hid]
            exact hc)]
        exact ih hrest

theorem filter_length_core {l1 l2 : List Task} (h : l1.map Task.core = l2.map Task.core)
    (p : Task → Bool) (hp : ∀ a b, a.core = b.core → p a = p b) :
    (l1.filter p).length = (l2.filter p).length := by
  induction l1 generalizing l2 with
  | nil =>
    cases l2 with
    | nil => rfl
    | cons b l2 => simp at h
  | cons a l1 ih =>
    cases l2 with
    | nil => simp at h
    | cons b l2 =>
      simp only [List.map_cons, List.cons.injEq] at h
      obtain ⟨hab, hrest⟩ := h
      simp only [List.filter_cons]
      rw [← hp a b hab]
      by_cases hc : p a
      · rw [if_pos hc, if_pos hc]
        simp [ih hrest]
      · rw [if_neg hc, if_neg hc]
        exact ih hrest

theorem findTask_core_after_loop (db : DB) (pid tid : Nat) :
    (findTask (schedule_next_tasks db pid).1 tid).map Task.core =
      (findTask db tid).map Task.core := by
  unfold findTask schedule_next_tasks
  exact find?_core_eq (schedule_loop_map_core _ db) tid

theorem schedule_next_tasks_projects (db : DB) (pid : Nat) :
    (schedule_next_tasks db pid).1.projects = db.projects :=
  schedule_loop_projects _ db

theorem schedule_next_tasks_map_core (db : DB) (pid : Nat) :
    (schedule_next_tasks db pid).1.tasks.map Task.core = db.tasks.map Task.core :=
  schedule_loop_map_core _ db

theorem exists_of_map_core_eq {o : Option Task} {t0 : Task}
    (h : o.map Task.core = some t0.core) : ∃ C, o = some C ∧ C.core = t0.core := by
  cases o with
  | none => simp at h
  | some C => exact ⟨C, rfl, by simpa using h⟩

theorem findTask_append_skip_old {db : DB} (hwf : db.wf) (l : List Task) (x : Nat)
    (hx : db.nextTaskId ≤ x) :
    (db.tasks ++ l).find? (fun t => t.id == x) = l.find? (fun t => t.id == x) := by
  rw [List.find?_append]
  have hnone : db.tasks.find? (fun t => t.id == x) = none := by
    rw [List.find?_eq_none]
    intro t ht
    have := hwf.2.2 t ht
    simp only [beq_iff_eq]
    omega
  rw [hnone]
  rfl

theorem create_tasks_from_spec_parts (db : DB) (pid : Nat) (spec : SpecDoc) (q : Project)
    (hq : findProject db pid = some q) :
    ∃ db2, create_tasks_from_spec db pid spec = some db2 ∧
      db2.tasks = db.tasks ++ batch_with_deps db.nextTaskId pid spec ∧
      db2.projects = (updateProject db pid fun r =>
        { r with total_tasks := (batch_with_deps db.nextTaskId pid spec).length }).projects := by
  simp only [create_tasks_from_spec, hq]
  exact ⟨_, rfl, rfl, rfl⟩

theorem on_planning_complete_parts (db : DB) (now pid : Nat) (spec : SpecDoc) (p : Project)
    (hp : findProject db pid = some p) :
    ∃ db2, on_planning_complete db now pid spec = some (schedule_next_tasks db2 pid) ∧
      db2.tasks = db.tasks ++ batch_with_deps db.nextTaskId pid spec ∧
      (findProject db2 pid).map Project.status = some ProjectStatus.coding := by
  have hp1 : findProject (updateProject db pid fun r =>
      { r with spec := some spec.asTriple, status := ProjectStatus.coding,
               started_at := some now }) pid =
      some { p with spec := some spec.asTriple, status := ProjectStatus.coding,
                    started_at := some now } := by
    refine findProject_updateProject_self ?_ hp
    exact fun u => rfl
  obtain ⟨db2, hc2, ht2, hpr2⟩ := create_tasks_from_spec_parts _ pid spec _ hp1
  refine ⟨db2, ?_, ?_, ?_⟩
  · simp only [on_planning_complete, hp, hc2]
  · exact ht2
  · rw [findProject_eq_of_projects hpr2]
    refine Eq.trans (congrArg (Option.map Project.status)
      (findProject_updateProject_self ?_ hp1)) ?_
    · exact fun u => rfl
    · rfl

/-- C8: on planning completion for an existing project, the store afterwards
holds the expanded task graph with fresh ids: one `CODEGEN` task per declared
component (carrying that component's payload, with no dependencies), exactly
one new `TESTING` task whose `depends_on` is precisely the list of all new
`CODEGEN` task ids, and exactly one new `DEPLOYMENT` task whose `depends_on` is
exactly the `TESTING` task's id; the project's status is `CODING`; and the
`TESTING` task can only become ready in a store where every one of its
`CODEGEN` dependencies is `COMPLETED`. -/
theorem planning_expands_task_graph (db : DB) (now pid : Nat) (spec : SpecDoc)
    (p : Project) (hwf : db.wf) (hp : findProject db pid = some p) :
    ∃ r, on_planning_complete db now pid spec = some r ∧
      (findProject r.1 pid).map Project.status = some ProjectStatus.coding ∧
      (∀ i comp, (declaredComponents spec).get? i = some comp →
        ∃ C, findTask r.1 (db.nextTaskId + i) = some C ∧ C.project_id = pid ∧
          C.type = TaskType.codegen ∧ C.input_data.map Prod.fst = some comp ∧
          C.depends_on = []) ∧
      (∃ T, findTask r.1 (db.nextTaskId + (declaredComponents spec).length) = some T ∧
        T.project_id = pid ∧ T.type = TaskType.testing ∧
        T.depends_on =
          (List.range (declaredComponents spec).length).map (db.nextTaskId + ·) ∧
        (∀ db3, task_is_ready db3 T = true →
          ∀ d ∈ T.depends_on, ∃ c, findTask db3 d = some c ∧
            c.status = TaskStatus.completed) ∧
        (∃ D, findTask r.1 (db.nextTaskId + (declaredComponents spec).length + 1) =
            some D ∧
          D.project_id = pid ∧ D.type = TaskType.deployment ∧ D.depends_on = [T.id])) ∧
      (r.1.tasks.filter fun t =>
        decide (db.nextTaskId ≤ t.id) && (t.type == TaskType.testing)).length = 1 ∧
      (r.1.tasks.filter fun t =>
        decide (db.nextTaskId ≤ t.id) && (t.type == TaskType.deployment)).length = 1 := by
  obtain ⟨db2, hrun, ht2, hstat⟩ := on_planning_complete_parts db now pid spec p hp
  have hlen : (spec_codegen_tasks pid spec).length = (declaredComponents spec).length :=
    spec_codegen_tasks_length pid spec
  rw [show (declaredComponents spec).length = (spec_codegen_tasks pid spec).length
    from hlen.symm]
  have hbatch := batch_with_deps_eq db.nextTaskId pid spec
  have htasks : db2.tasks = db.tasks ++
      (assignIds db.nextTaskId (spec_codegen_tasks pid spec) ++
        [{ mkSpecTask pid "Generate and Run Tests" TaskType.testing none with
           id := db.nextTaskId + (spec_codegen_tasks pid spec).length,
           depends_on := (List.range (spec_codegen_tasks pid spec).length).map
             (db.nextTaskId + ·) },
         { mkSpecTask pid "Deploy Application" TaskType.deployment none with
           id := db.nextTaskId + (spec_codegen_tasks pid spec).length + 1,
           depends_on := [db.nextTaskId + (spec_codegen_tasks pid spec).length] }]) := by
    rw [ht2, hbatch]
  have hfinddb2 : ∀ x, db.nextTaskId ≤ x → findTask db2 x =
      (assignIds db.nextTaskId (spec_codegen_tasks pid spec) ++
        [{ mkSpecTask pid "Generate and Run Tests" TaskType.testing none with
           id := db.nextTaskId + (spec_codegen_tasks pid spec).length,
           depends_on := (List.range (spec_codegen_tasks pid spec).length).map
             (db.nextTaskId + ·) },
         { mkSpecTask pid "Deploy Application" TaskType.deployment none with
           id := db.nextTaskId + (spec_codegen_tasks pid spec).length + 1,
           depends_on := [db.nextTaskId + (spec_codegen_tasks pid spec).length] }]).find?
        (fun t => t.id == x) := by
    intro x hx
    show db2.tasks.find? (fun t => t.id == x) = _
    rw [htasks]
    exact findTask_append_skip_old hwf _ x hx
  have hA := spec_codegen_tasks_fields pid spec
  refine ⟨_, hrun, ?_, ?_, ?_, ?_, ?_⟩
  · rw [findProject_eq_of_projects (schedule_next_tasks_projects db2 pid)]
    exact hstat
  · -- one CODEGEN task per declared component
    intro i comp hcomp
    have hidc : i < (declaredComponents spec).length := by
      by_contra hge
      rw [List.get?_eq_none.mpr (Nat.le_of_not_lt hge)] at hcomp
      cases hcomp
    have hicg : i < (spec_codegen_tasks pid spec).length := by
      rw [hlen]
      exact hidc
    cases hvv : (spec_codegen_tasks pid spec).get? i with
    | none =>
      have := List.get?_eq_none.mp hvv
      omega
    | some v =>
      have hvmem : v ∈ spec_codegen_tasks pid spec := by
        apply List.getElem?_mem
        rw [← List.get?_eq_getElem?]
        exact hvv
      have hvf := hA v hvmem
      have hfind : findTask db2 (db.nextTaskId + i) = some { v with id := db.nextTaskId + i } := by
        rw [hfinddb2 (db.nextTaskId + i) (Nat.le_add_right _ _)]
        rw [List.find?_append, find?_assignIds_lt db.nextTaskId hicg, hvv]
        rfl
      have hcore := findTask_core_after_loop db2 pid (db.nextTaskId + i)
      rw [hfind] at hcore
      obtain ⟨C, hC, hCcore⟩ := exists_of_map_core_eq hcore
      obtain ⟨hCid, hCpid, hCty, hCinp, hCdep⟩ := core_eq_fields hCcore
      refine ⟨C, hC, ?_, ?_, ?_, ?_⟩
      · rw [hCpid]
        exact hvf.2.2.2
      · rw [hCty]
        exact hvf.1
      · rw [hCinp]
        have hcm := congrArg (fun l => l.get? i) (spec_codegen_tasks_components pid spec)
        simp only [List.get?_eq_getElem?, List.getElem?_map] at hcm
        have hvv2 : (spec_codegen_tasks pid spec)[i]? = some v := by
          rw [← List.get?_eq_getElem?]
          exact hvv
        have hcomp2 : (declaredComponents spec)[i]? = some comp := by
          rw [← List.get?_eq_getElem?]
          exact hcomp
        rw [hvv2, hcomp2] at hcm
        simpa using hcm
      · rw [hCdep]
        exact hvf.2.1
  · -- the unique TESTING and DEPLOYMENT rows
    have hfindT : findTask db2 (db.nextTaskId + (spec_codegen_tasks pid spec).length) =
        some { mkSpecTask pid "Generate and Run Tests" TaskType.testing none with
               id := db.nextTaskId + (spec_codegen_tasks pid spec).length,
               depends_on := (List.range (spec_codegen_tasks pid spec).length).map
                 (db.nextTaskId + ·) } := by
      rw [hfinddb2 _ (Nat.le_add_right _ _)]
      rw [List.find?_append,
        find?_assignIds_none db.nextTaskId _ (Or.inr (Nat.le_refl _))]
      rw [List.find?_cons_of_pos (p := fun t : Task =>
        t.id == db.nextTaskId + (spec_codegen_tasks pid spec).length) _ (by simp)]
      rfl
    have hfindD : findTask db2 (db.nextTaskId + (spec_codegen_tasks pid spec).length + 1) =
        some { mkSpecTask pid "Deploy Application" TaskType.deployment none with
               id := db.nextTaskId + (spec_codegen_tasks pid spec).length + 1,
               depends_on := [db.nextTaskId + (spec_codegen_tasks pid spec).length] } := by
      rw [hfinddb2 _ (by omega)]
      rw [List.find?_append,
        find?_assignIds_none db.nextTaskId _ (Or.inr (by omega))]
      rw [List.find?_cons_of_neg (p := fun t : Task =>
        t.id == db.nextTaskId + (spec_codegen_tasks pid spec).length + 1) _ (by
          simp only [beq_iff_eq]
          omega)]
      rw [List.find?_cons_of_pos (p := fun t : Task =>
        t.id == db.nextTaskId + (spec_codegen_tasks pid spec).length + 1) _ (by simp)]
      rfl
    have hcoreT := findTask_core_after_loop db2 pid
      (db.nextTaskId + (spec_codegen_tasks pid spec).length)
    rw [hfindT] at hcoreT
    obtain ⟨T, hT, hTcore⟩ := exists_of_map_core_eq hcoreT
    obtain ⟨hTid, hTpid, hTty, hTinp, hTdep⟩ := core_eq_fields hTcore
    have hcoreD := findTask_core_after_loop db2 pid
      (db.nextTaskId + (spec_codegen_tasks pid spec).length + 1)
    rw [hfindD] at hcoreD
    obtain ⟨D, hD, hDcore⟩ := exists_of_map_core_eq hcoreD
    obtain ⟨hDid, hDpid, hDty, hDinp, hDdep⟩ := core_eq_fields hDcore
    refine ⟨T, hT, hTpid, hTty, hTdep, ?_, D, hD, hDpid, hDty, ?_⟩
    · intro db3 hready d hd
      exact ready_dep_completed hready d hd
    · rw [hDdep, hTid]
  · -- exactly one new TESTING row
    rw [filter_length_core (schedule_next_tasks_map_core db2 pid) _ (by
      intro a b h
      obtain ⟨h1, _, h3, _, _⟩ := core_eq_fields h
      rw [h1, h3])]
    rw [htasks, List.filter_append, List.filter_append]
    have hold : db.tasks.filter (fun t =>
        decide (db.nextTaskId ≤ t.id) && (t.type == TaskType.testing)) = [] := by
      rw [List.filter_eq_nil_iff]
      intro t ht
      have := hwf.2.2 t ht
      simp only [Bool.and_eq_true, decide_eq_true_eq, not_and]
      intro hle
      omega
    have hcg0 : (assignIds db.nextTaskId (spec_codegen_tasks pid spec)).filter (fun t =>
        decide (db.nextTaskId ≤ t.id) && (t.type == TaskType.testing)) = [] := by
      rw [List.filter_eq_nil_iff]
      intro t htm
      obtain ⟨i, v, hget, rfl⟩ := mem_assignIds htm
      have hvf := hA v (by
        apply List.getElem?_mem
        rw [← List.get?_eq_getElem?]
        exact hget)
      simp [hvf.1, taskType_beq_eq_decide]
    rw [hold, hcg0]
    simp [List.filter, taskType_beq_eq_decide, Nat.le_add_right, mkSpecTask]
  · -- exactly one new DEPLOYMENT row
    rw [filter_length_core (schedule_next_tasks_map_core db2 pid) _ (by
      intro a b h
      obtain ⟨h1, _, h3, _, _⟩ := core_eq_fields h
      rw [h1, h3])]
    rw [htasks, List.filter_append, List.filter_append]
    have hold : db.tasks.filter (fun t =>
        decide (db.nextTaskId ≤ t.id) && (t.type == TaskType.deployment)) = [] := by
      rw [List.filter_eq_nil_iff]
      intro t ht
      have := hwf.2.2 t ht
      simp only [Bool.and_eq_true, decide_eq_true_eq, not_and]
      intro hle
      omega
    have hcg0 : (assignIds db.nextTaskId (spec_codegen_tasks pid spec)).filter (fun t =>
        decide (db.nextTaskId ≤ t.id) && (t.type == TaskType.deployment)) = [] := by
      rw [List.filter_eq_nil_iff]
      intro t htm
      obtain ⟨i, v, hget, rfl⟩ := mem_assignIds htm
      have hvf := hA v (by
        apply List.getElem?_mem
        rw [← List.get?_eq_getElem?]
        exact hget)
      simp [hvf.1, taskType_beq_eq_decide]
    rw [hold, hcg0]
    simp only [List.filter, taskType_beq_eq_decide, mkSpecTask, List.nil_append,
      List.length_cons]
    rw [show decide (db.nextTaskId ≤
        db.nextTaskId + (spec_codegen_tasks pid spec).length + 1) = true from by
      rw [decide_eq_true_eq]
      omega]
    rw [show decide (db.nextTaskId ≤
        db.nextTaskId + (spec_codegen_tasks pid spec).length) = true from by
      rw [decide_eq_true_eq]
      omega]
    rfl

def projW8 : Project :=
  { id := 0, name := "p", status := ProjectStatus.planning, spec := none,
    total_tasks := 0, completed_tasks := 0, failed_tasks := 0, last_error := none,
    error_count := 0, started_at := none, completed_at := none, updated_at := none }

def dbW8 : DB :=
  { projects := [projW8], tasks := [], nextTaskId := 0, nextHandle := 0 }

def specW8 : SpecDoc :=
  { backend := some "b", frontend := some "f", infrastructure := none }

theorem planning_expands_task_graph_witness :
    ∃ r, on_planning_complete dbW8 3 0 specW8 = some r ∧
      (findProject r.1 0).map Project.status = some ProjectStatus.coding ∧
      (∀ i comp, (declaredComponents specW8).get? i = some comp →
        ∃ C, findTask r.1 (dbW8.nextTaskId + i) = some C ∧ C.project_id = 0 ∧
          C.type = TaskType.codegen ∧ C.input_data.map Prod.fst = some comp ∧
          C.depends_on = []) ∧
      (∃ T, findTask r.1 (dbW8.nextTaskId + (declaredComponents specW8).length) = some T ∧
        T.project_id = 0 ∧ T.type = TaskType.testing ∧
        T.depends_on =
          (List.range (declaredComponents specW8).length).map (dbW8.nextTaskId + ·) ∧
        (∀ db3, task_is_ready db3 T = true →
          ∀ d ∈ T.depends_on, ∃ c, findTask db3 d = some c ∧
            c.status = TaskStatus.completed) ∧
        (∃ D, findTask r.1 (dbW8.nextTaskId + (declaredComponents specW8).length + 1) =
            some D ∧
          D.project_id = 0 ∧ D.type = TaskType.deployment ∧ D.depends_on = [T.id])) ∧
      (r.1.tasks.filter fun t =>
        decide (dbW8.nextTaskId ≤ t.id) && (t.type == TaskType.testing)).length = 1 ∧
      (r.1.tasks.filter fun t =>
        decide (dbW8.nextTaskId ≤ t.id) && (t.type == TaskType.deployment)).length = 1 :=
  planning_expands_task_graph dbW8 3 0 specW8 projW8 (by decide) (by decide)

end Softsmith
